import Mathlib

/-!
Verification of the serving-table assembly core (`kythe/go/serving/xrefs/assemble`).

The Go file `assemble.go` is embedded shallowly below.  Go maps are embedded as
association lists (map reads are "last write wins" lookups); byte slices and
strings are embedded as `String` / `List Char`; `int`/`int32` values are `Int`
or, for sizes and counts, `Nat`; fallible functions return `Except String`.
Go's `sort.Sort` is embedded as `List.mergeSort` with the boolean relation
`fun a b => !less b a`, which produces a permutation of its input that is
pairwise ordered exactly as Go's sort postcondition guarantees.

The packages `schema`, `pager`, `graphstore` and the `xrefs.Normalizer` are
used by `assemble.go` but their sources are not part of the provided tree;
they are modelled from the spec (each such definition is marked
`Modelled from the spec:`).
-/

namespace Kythe

/-! ### Schema vocabulary

Modelled from the spec: the `schema` package (§4.A, §6) is an external
vocabulary of constants and predicates; its source is not in the tree. -/

def NodeKindFact : String := "/kythe/node/kind"

def SubkindFact : String := "/kythe/subkind"

def TextFact : String := "/kythe/text"

def TextEncodingFact : String := "/kythe/text/encoding"

def AnchorStartFact : String := "/kythe/loc/start"

def AnchorEndFact : String := "/kythe/loc/end"

def SnippetStartFact : String := "/kythe/snippet/start"

def SnippetEndFact : String := "/kythe/snippet/end"

def CompleteFact : String := "/kythe/complete"

def FileKind : String := "file"

def AnchorKind : String := "anchor"

def ImplicitSubkind : String := "implicit"

def ChildOfEdge : String := "/kythe/edge/childof"

def DefinesEdge : String := "/kythe/edge/defines"

def DocumentsEdge : String := "/kythe/edge/documents"

def RefEdge : String := "/kythe/edge/ref"

def NamedEdge : String := "/kythe/edge/named"

def TypedEdge : String := "/kythe/edge/typed"

/-- Reverse edge kinds carry a leading `%` marker. -/
def reverseEdgeMarker : String := "%"

/-- Numeric value of a list of decimal digits. -/
def digitsToNat (l : List Char) : Nat :=
  l.foldl (fun n c => n * 10 + (c.toNat - 48)) 0

/-- Modelled from the spec: `parseOrdinal(kind)` strips a trailing
`.<nonneg-int>` suffix, yielding `(baseKind, ordinal, hadOrdinal)` (§4.A). -/
def ParseOrdinal (kind : String) : String × Int × Bool :=
  let rev := kind.data.reverse
  let digits := rev.takeWhile Char.isDigit
  let rest := rev.dropWhile Char.isDigit
  if digits = [] then (kind, 0, false)
  else
    match rest with
    | '.' :: base => (⟨base.reverse⟩, (digitsToNat digits.reverse : Int), true)
    | _ => (kind, 0, false)

/-- Byte-wise string prefix test (`strings.HasPrefix`). -/
def hasPrefixStr (p s : String) : Bool := p.data.isPrefixOf s.data

/-- Modelled from the spec: a kind is reverse iff it carries the `%` marker
(`direction(kind)`, §4.A).  `true` means reverse. -/
def isReverseKind (kind : String) : Bool :=
  hasPrefixStr reverseEdgeMarker kind

/-- Modelled from the spec: `mirror(kind)` toggles the edge direction
(forward ↔ `%reverse`) (§4.A). -/
def MirrorEdge (kind : String) : String :=
  if isReverseKind kind then ⟨kind.data.drop 1⟩
  else reverseEdgeMarker ++ kind

/-- Strip the reverse marker, when present. -/
def stripMarker (kind : String) : String :=
  if isReverseKind kind then ⟨kind.data.drop 1⟩ else kind

def toLowerStr (s : String) : String := ⟨s.data.map Char.toLower⟩

/-- Modelled from the spec: `canonicalize(kind)`: lowercase, strip ordinal,
strip reverse marker (§4.A). -/
def Canonicalize (kind : String) : String :=
  toLowerStr (stripMarker (ParseOrdinal kind).1)

/-- Modelled from the spec: `isEdgeVariant(kind, root)`: kind equals root or is
a dotted extension of it (§4.A). -/
def IsEdgeVariant (kind root : String) : Bool :=
  kind = root || hasPrefixStr (root ++ ".") kind

/-- Modelled from the spec: `isAnchorEdge(kind)`: true for `defines`,
`documents`, `ref`, plus their variants and reverses (§4.A). -/
def IsAnchorEdge (kind : String) : Bool :=
  let c := Canonicalize kind
  IsEdgeVariant c DefinesEdge || IsEdgeVariant c DocumentsEdge || IsEdgeVariant c RefEdge

/-! ### Data model (`srvpb`/`cpb`/`spb` messages used by `assemble.go`) -/

structure Fact where
  name : String
  value : String
deriving DecidableEq, Repr

structure Node where
  ticket : String
  fact : List Fact
deriving DecidableEq, Repr

/-- `assemble.EdgeTarget`: a target of an edge with an optional ordinal. -/
structure EdgeTarget where
  ticket : String
  ordinal : Int
deriving DecidableEq, Repr

/-- `assemble.Source`: a collection of facts and edges with a common source.
The Go maps are embedded as association lists: `facts` holds one entry per
fact name (later writes overwrite in place), `edges` one entry per edge kind. -/
structure Source where
  ticket : String
  facts : List (String × String)
  edges : List (String × List EdgeTarget)
deriving DecidableEq, Repr

/-- `spb.Entry`: tickets stand in for VNames (the ticket codec is an opaque
bijection per the spec, so `kytheuri.ToString` is the identity here). -/
structure Entry where
  source : String
  edgeKind : String
  target : String
  factName : String
  factValue : String
deriving DecidableEq, Repr

/-- Modelled from the spec: `graphstore.IsEdge` — an entry is an edge iff its
edge kind is non-empty (§3). -/
def IsEdge (e : Entry) : Bool := e.edgeKind ≠ ""

/-- `srvpb.Edge` (streaming form).  A header edge has no kind and no target. -/
structure SrvEdge where
  source : Node
  kind : String
  ordinal : Int
  target : Option Node
deriving DecidableEq, Repr

structure RawAnchor where
  ticket : String
  startOffset : Int
  endOffset : Int
  snippetStart : Int
  snippetEnd : Int
deriving DecidableEq, Repr

/-- `srvpb.File`: `text` is the byte content (one `Char` per byte). -/
structure File where
  ticket : String
  text : List Char
  encoding : String
deriving DecidableEq, Repr

structure Point where
  byteOffset : Int
  lineNumber : Int
  columnOffset : Int
deriving DecidableEq, Repr

structure Span where
  start : Point
  stop : Point
deriving DecidableEq, Repr

structure ExpandedAnchor where
  ticket : String
  kind : String
  parent : String
  text : String
  span : Span
  snippet : String
  snippetSpan : Span
deriving DecidableEq, Repr

structure Decoration where
  anchor : RawAnchor
  kind : String
  target : Node
deriving DecidableEq, Repr

/-- `srvpb.FileDecorations`: either a file fragment or a decoration fragment. -/
structure FileDecorations where
  file : Option File
  decoration : List Decoration
deriving DecidableEq, Repr

structure EdgeGroup where
  kind : String
  edge : List EdgeTarget
deriving DecidableEq, Repr

structure PageIndex where
  pageKey : String
  edgeKind : String
  edgeCount : Nat
deriving DecidableEq, Repr

structure PagedEdgeSet where
  source : Node
  group : List EdgeGroup
  pageIndex : List PageIndex
  totalEdges : Nat
deriving DecidableEq, Repr

structure EdgePage where
  pageKey : String
  sourceTicket : String
  edgesGroup : EdgeGroup
deriving DecidableEq, Repr

structure XRefGroup where
  kind : String
  anchor : List ExpandedAnchor
deriving DecidableEq, Repr

structure XRefPageIndex where
  pageKey : String
  kind : String
  count : Nat
deriving DecidableEq, Repr

structure PagedCrossReferences where
  sourceTicket : String
  incomplete : Bool
  group : List XRefGroup
  pageIndex : List XRefPageIndex
  totalReferences : Nat
deriving DecidableEq, Repr

structure XRefPage where
  pageKey : String
  sourceTicket : String
  group : XRefGroup
deriving DecidableEq, Repr

/-- `ipb.CrossReference` (the parts constructed by `assemble.CrossReference`). -/
structure CrossRef where
  referent : Node
  targetAnchor : ExpandedAnchor
deriving DecidableEq, Repr

/-! ### Edge-kind ordering (`edgeOrdering`, `edgeKindLess`, `byOrdinal`) -/

def edgeOrdering : List String :=
  [DefinesEdge, DocumentsEdge, RefEdge, NamedEdge, TypedEdge]

/-- The `for _, kind := range edgeOrdering` loop inside `edgeKindLess`,
operating on the two canonicalized kinds. -/
def ordLoop : List String → String → String → Bool
  | [], k1, k2 => k1 < k2
  | e :: rest, k1, k2 =>
    if k1 = e then true
    else if k2 = e then false
    else if IsEdgeVariant k1 e ≠ IsEdgeVariant k2 e then IsEdgeVariant k1 e
    else if IsEdgeVariant k1 e then k1 < k2
    else ordLoop rest k1 k2

def edgeKindLess (kind1 kind2 : String) : Bool :=
  if kind1 = kind2 then false
  else if IsAnchorEdge kind1 ≠ IsAnchorEdge kind2 then IsAnchorEdge kind1
  else if isReverseKind kind1 ≠ isReverseKind kind2 then !isReverseKind kind1
  else ordLoop edgeOrdering (Canonicalize kind1) (Canonicalize kind2)

/-- `byOrdinal.Less`: order edges by ordinal, breaking ties by ticket. -/
def byOrdinalLess (a b : EdgeTarget) : Bool :=
  if a.ordinal = b.ordinal then a.ticket < b.ticket else a.ordinal < b.ordinal

/-- `xrefs.ByName.Less`: order facts by name (modelled from the spec: node
fact lists are sorted ascending by fact name, §3). -/
def byNameLess (a b : Fact) : Bool := a.name < b.name

/-! ### Source assembly (`Node`, `SourceFromEntries`, maps, reverse edges) -/

/-- `Source.Node()`: facts of the source, sorted by name. -/
def Source.node (s : Source) : Node :=
  { ticket := s.ticket
    fact := (s.facts.map fun p => (⟨p.1, p.2⟩ : Fact)).mergeSort
      (fun a b => !byNameLess b a) }

/-- Write one fact into the facts map: overwrite in place, else append. -/
def updateFacts : List (String × String) → String → String → List (String × String)
  | [], name, value => [(name, value)]
  | (n, v) :: rest, name, value =>
    if n = name then (n, value) :: rest
    else (n, v) :: updateFacts rest name value

/-- Read from the facts map (names are unique by construction). -/
def lookupFact : List (String × String) → String → Option String
  | [], _ => none
  | (n, v) :: rest, name => if n = name then some v else lookupFact rest name

def factStep (m : List (String × String)) (e : Entry) : List (String × String) :=
  if IsEdge e then m else updateFacts m e.factName e.factValue

/-- The `(baseKind, targetTicket, ordinal)` triples of the edge entries, in
input order. -/
def edgeTriples (entries : List Entry) : List (String × String × Int) :=
  (entries.filter IsEdge).map fun e =>
    ((ParseOrdinal e.edgeKind).1, e.target, (ParseOrdinal e.edgeKind).2.1)

/-- The distinct base kinds among the deduplicated triples. -/
def edgeKindsOf (trips : List (String × String × Int)) : List String :=
  (trips.map fun t => t.1).dedup

/-- The edge targets of one base kind among the deduplicated triples. -/
def kindTargets (trips : List (String × String × Int)) (k : String) : List EdgeTarget :=
  trips.filterMap fun t => if t.1 = k then some (⟨t.2.1, t.2.2⟩ : EdgeTarget) else none

/-- `assemble.SourceFromEntries`.  The Go nested maps
(kind → ticket → ordinal-set) deduplicate triples; iteration order is
irrelevant in Go because each per-kind list is finally sorted by the strict
total order `byOrdinal`, so the deduplicated-then-sorted lists below are the
unique observable result. -/
def SourceFromEntries (entries : List Entry) : Option Source :=
  match entries with
  | [] => none
  | e0 :: _ =>
    let trips := (edgeTriples entries).dedup
    some
      { ticket := e0.source
        facts := entries.foldl factStep []
        edges := (edgeKindsOf trips).map fun k =>
          (k, (kindTargets trips k).mergeSort fun a b => !byOrdinalLess b a) }

/-- Go map read over `Source.Edges` (missing kind reads as nil). -/
def lookupEdges (s : Source) (k : String) : List EdgeTarget :=
  ((s.edges.find? fun p => p.1 = k).map fun p => p.2).getD []

/-- `assemble.FactsToMap` followed by a map read: the map holds the last
value written for each name; a missing name reads as the empty string. -/
def FactsToMap (facts : List Fact) (name : String) : String :=
  (((facts.filter fun f => f.name = name).getLast?).map Fact.value).getD ""

/-- `assemble.GetFact`: value of the first fact with the given name. -/
def GetFact : List Fact → String → Option String
  | [], _ => none
  | f :: rest, name => if f.name = name then some f.value else GetFact rest name

/-- The `switch f.Name` loop of `assemble.FilterTextFacts`. -/
def filterTextFactList : List Fact → List Fact
  | [] => []
  | f :: rest =>
    if f.name = TextFact ∨ f.name = TextEncodingFact then filterTextFactList rest
    else f :: filterTextFactList rest

/-- `assemble.FilterTextFacts`: a new node without any text facts. -/
def FilterTextFacts (n : Node) : Node :=
  { ticket := n.ticket, fact := filterTextFactList n.fact }

/-- The `(kind, target)` pairs of a source's edge map, in map order. -/
def sourceTriples (src : Source) : List (String × EdgeTarget) :=
  src.edges.flatMap fun p => p.2.map fun t => (p.1, t)

/-- `assemble.PartialReverseEdges`: a self-edge followed by one reversed edge
per (kind, target, ordinal). -/
def PartialReverseEdges (src : Source) : List SrvEdge :=
  let node := src.node
  let targetNode := FilterTextFacts node
  (⟨node, "", 0, none⟩ : SrvEdge) ::
    (src.edges.flatMap fun p =>
      p.2.map fun t =>
        (⟨⟨t.ticket, []⟩, MirrorEdge p.1, t.ordinal, some targetNode⟩ : SrvEdge))

/-! ### Decoration fragment builder -/

structure DFBState where
  anchor : Option RawAnchor
  decor : List Decoration
  parents : List String
deriving DecidableEq, Repr

def emptyDFB : DFBState := ⟨none, [], []⟩

/-- `DecorationFragmentBuilder.Flush`: emit the buffered decorations to every
current parent (only when both are non-empty), then reset all state. -/
def dfbFlush (st : DFBState) : DFBState × List (String × FileDecorations) :=
  (emptyDFB,
   if st.decor ≠ [] ∧ st.parents ≠ [] then
     st.parents.map fun parent => (parent, ⟨none, st.decor⟩)
   else [])

/-- Go's `strconv.Atoi`: optional sign followed by at least one digit. -/
def goAtoi (s : String) : Option Int :=
  match s.data with
  | [] => none
  | '+' :: ds =>
    if ds ≠ [] ∧ ds.all Char.isDigit then some (digitsToNat ds : Int) else none
  | '-' :: ds =>
    if ds ≠ [] ∧ ds.all Char.isDigit then some (-(digitsToNat ds : Int)) else none
  | ds => if ds.all Char.isDigit then some (digitsToNat ds : Int) else none

/-- `DecorationFragmentBuilder.AddEdge`: returns the new state and the
fragments emitted (as `(file ticket, fragment)` pairs, in emission order). -/
def dfbAddEdge (st : DFBState) (e : SrvEdge) : DFBState × List (String × FileDecorations) :=
  match e.target with
  | none =>
    let fl := dfbFlush st
    let st0 := fl.1
    let out0 := fl.2
    let srcFacts := FactsToMap e.source.fact
    if srcFacts NodeKindFact = FileKind then
      (st0, out0 ++ [(e.source.ticket,
        ⟨some ⟨e.source.ticket, (srcFacts TextFact).data, srcFacts TextEncodingFact⟩, []⟩)])
    else if srcFacts NodeKindFact = AnchorKind then
      if srcFacts SubkindFact = ImplicitSubkind then (st0, out0)
      else
        match goAtoi (srcFacts AnchorStartFact), goAtoi (srcFacts AnchorEndFact) with
        | some s, some t =>
          let anc : RawAnchor :=
            { ticket := e.source.ticket
              startOffset := s
              endOffset := t
              snippetStart := (goAtoi (srcFacts SnippetStartFact)).getD 0
              snippetEnd := (goAtoi (srcFacts SnippetEndFact)).getD 0 }
          ({ st0 with anchor := some anc }, out0)
        | _, _ =>
          -- a start/end offset failed to parse: logged and dropped in Go
          (st0, out0)
    else (st0, out0)
  | some tgt =>
    match st.anchor with
    | none => (st, [])
    | some anc =>
      if e.kind = ChildOfEdge then
        if (GetFact tgt.fact NodeKindFact).getD "" = FileKind then
          ({ st with parents := st.parents ++ [tgt.ticket] }, [])
        else (st, [])
      else
        let decor := st.decor ++ [⟨anc, e.kind, tgt⟩]
        if st.parents ≠ [] then
          ({ st with decor := [] }, st.parents.map fun p => (p, ⟨none, decor⟩))
        else ({ st with decor := decor }, [])

/-- Run a sequence of edges through `dfbAddEdge`, accumulating outputs. -/
def dfbRun (st : DFBState) (es : List SrvEdge) :
    DFBState × List (String × FileDecorations) :=
  es.foldl (fun acc e =>
    let r := dfbAddEdge acc.1 e
    (r.1, acc.2 ++ r.2)) (st, [])

/-! ### Normalizer and anchor expansion -/

/-- Modelled from the spec: byte offsets of the starts of lines (§2.C).
Line 1 starts at offset 0; each later line starts one past a newline. -/
def lineStarts (text : List Char) : List Nat :=
  0 :: ((List.range text.length).filterMap fun i =>
    if text.get? i = some '\n' then some (i + 1) else none)

/-- Scan the (ascending) line starts for the last one at or before `o`. -/
def locateAux : List Nat → Nat → Nat → Nat → Nat × Nat
  | [], _, idx, cur => (idx, cur)
  | s :: rest, o, idx, cur =>
    if s ≤ o then locateAux rest o (idx + 1) s else (idx, cur)

/-- `(1-based line number, byte offset of that line's start)` for offset `o`. -/
def locateLine (starts : List Nat) (o : Nat) : Nat × Nat :=
  match starts with
  | [] => (1, 0)
  | s0 :: rest => locateAux rest o 1 s0

/-- Modelled from the spec: the `xrefs.Normalizer` maps byte offsets to
(line, column) points and line numbers back to byte offsets (§2.C); it is
built from the parent file's text. -/
structure Normalizer where
  text : List Char
deriving DecidableEq, Repr

/-- `Normalizer.ByteOffset`: the point for a byte offset (clamped to the
text, as the real normalizer does). -/
def Normalizer.byteOffsetPoint (n : Normalizer) (offset : Int) : Point :=
  let o := (min (max offset 0) (n.text.length : Int)).toNat
  let lc := locateLine (lineStarts n.text) o
  { byteOffset := (o : Int), lineNumber := (lc.1 : Int), columnOffset := (o : Int) - (lc.2 : Int) }

/-- Modelled from the spec: `normalizer.pointForLine` — the point at the
start of the given 1-based line; lines past the last clamp to end of text
(`Normalizer.Point` applied to a point carrying only a line number). -/
def Normalizer.pointForLine (n : Normalizer) (line : Int) : Point :=
  let starts := lineStarts n.text
  if 1 ≤ line ∧ line ≤ (starts.length : Int) then
    { byteOffset := (starts.getD (line.toNat - 1) 0 : Int), lineNumber := line, columnOffset := 0 }
  else
    { byteOffset := (n.text.length : Int), lineNumber := (starts.length : Int), columnOffset := 0 }

/-- `file.Text[a:b]` as a string. -/
def textSlice (text : List Char) (a b : Int) : String :=
  ⟨(text.drop a.toNat).take (b - a).toNat⟩

/-- `assemble.checkSpan`. -/
def checkSpan (textLen : Nat) (start stop : Int) : Except String Unit :=
  if (textLen : Int) < stop then .error s!"span past EOF {textLen}: [{start}, {stop})"
  else if start < 0 then .error s!"negative span: [{start}, {stop})"
  else if stop < start then .error s!"crossed span: [{start}, {stop})"
  else .ok ()

/-- `assemble.getText`.  Modelled from the spec: the text codec
(`text.ToUTF8`) is an external collaborator; decoding the file's already
UTF-8 text is the identity and cannot fail here. -/
def getText (sp ep : Point) (file : File) : Except String String :=
  .ok (textSlice file.text sp.byteOffset ep.byteOffset)

/-- `assemble.ExpandAnchor`. -/
def ExpandAnchor (anchor : RawAnchor) (file : File) (norm : Normalizer) (kind : String) :
    Except String ExpandedAnchor :=
  match checkSpan file.text.length anchor.startOffset anchor.endOffset with
  | .error e => .error s!"invalid text offsets: {e}"
  | .ok _ =>
    let sp := norm.byteOffsetPoint anchor.startOffset
    let ep := norm.byteOffsetPoint anchor.endOffset
    match getText sp ep file with
    | .error e => .error s!"error getting anchor text: {e}"
    | .ok txt =>
      if anchor.snippetStart ≠ 0 ∨ anchor.snippetEnd ≠ 0 then
        match checkSpan file.text.length anchor.snippetStart anchor.snippetEnd with
        | .error e => .error s!"invalid snippet offsets: {e}"
        | .ok _ =>
          let ssp := norm.byteOffsetPoint anchor.snippetStart
          let sep := norm.byteOffsetPoint anchor.snippetEnd
          match getText ssp sep file with
          | .error e => .error s!"error getting text for snippet: {e}"
          | .ok snippet =>
            .ok { ticket := anchor.ticket, kind := kind, parent := file.ticket,
                  text := txt, span := ⟨sp, ep⟩,
                  snippet := snippet, snippetSpan := ⟨ssp, sep⟩ }
      else
        -- fallback to a line-based snippet
        let ssp : Point :=
          { byteOffset := sp.byteOffset - sp.columnOffset, lineNumber := sp.lineNumber,
            columnOffset := 0 }
        let nextLine := norm.pointForLine (sp.lineNumber + 1)
        if nextLine.byteOffset ≤ ssp.byteOffset then .error "anchor past EOF"
        else
          let sep : Point :=
            { byteOffset := nextLine.byteOffset - 1, lineNumber := sp.lineNumber,
              columnOffset := sp.columnOffset + (nextLine.byteOffset - sp.byteOffset - 1) }
          match getText ssp sep file with
          | .error e => .error s!"error getting text for line snippet: {e}"
          | .ok snippet =>
            .ok { ticket := anchor.ticket, kind := kind, parent := file.ticket,
                  text := txt, span := ⟨sp, ep⟩,
                  snippet := snippet, snippetSpan := ⟨ssp, sep⟩ }

/-- The fact-selection loop of `assemble.CrossReference`: keep only the
`/kythe/complete` facts of the referent. -/
def completeFactsOf : List Fact → List Fact
  | [] => []
  | f :: rest =>
    if f.name = CompleteFact then f :: completeFactsOf rest else completeFactsOf rest

/-- `assemble.CrossReference`. -/
def CrossReference (file : Option File) (norm : Option Normalizer) (d : Decoration) :
    Except String CrossRef :=
  match file, norm with
  | some f, some nm =>
    match ExpandAnchor d.anchor f nm (MirrorEdge d.kind) with
    | .error e => .error s!"error expanding anchor: {e}"
    | .ok ea => .ok ⟨⟨d.target.ticket, completeFactsOf d.target.fact⟩, ea⟩
  | _, _ => .error "missing decoration's parent file"

/-! ### Set pager

Modelled from the spec: the generic `pager.SetPager` (§4.G) is an external
package; only its five callbacks (supplied by `assemble.go` and embedded
faithfully below) are in the provided sources.  The output callbacks are
embedded as pure functions: `outputPage` returns the updated set (in Go it
mutates the set) together with the emitted page, and `outputSet` returns the
final emitted artifact. -/

structure SetPager (Head Set Group Page : Type) where
  maxPageSize : Int
  newSet : Head → Set
  combine : Group → Group → Option Group
  split : Nat → Group → Group × Group
  size : Group → Nat
  outputSet : Nat → Set → List Group → Set
  outputPage : Set → Group → Set × Page

/-- The page-eviction loop of `AddGroup`: while paging is enabled and the
tail group's size reaches the maximum, split off a page-sized prefix and
emit it.  `fuel` bounds the iteration count (each iteration shrinks the
group, so `size g + 1` is always enough). -/
def evictPages {H S G Pg : Type} (P : SetPager H S G Pg) :
    Nat → S → G → List Pg → S × G × List Pg
  | 0, set, g, pages => (set, g, pages)
  | fuel + 1, set, g, pages =>
    if 0 < P.maxPageSize ∧ P.maxPageSize ≤ (P.size g : Int) then
      let pr := P.split P.maxPageSize.toNat g
      let sp := P.outputPage set pr.1
      evictPages P fuel sp.1 pr.2 (pages ++ [sp.2])
    else (set, g, pages)

structure PagerState (S G : Type) where
  set : S
  groups : List G
  total : Nat

/-- Merge the incoming group into the buffer's tail when `combine` accepts
it (same kind), else append it. -/
def pagerMergeGroups {H S G Pg : Type} (P : SetPager H S G Pg)
    (groups : List G) (g : G) : List G :=
  match groups.getLast? with
  | none => [g]
  | some last =>
    match P.combine last g with
    | some c => groups.dropLast ++ [c]
    | none => groups ++ [g]

/-- `SetPager.AddGroup`: merge the group into the buffer's tail when the
kinds agree, else append it; account its size into the running total; then
evict full pages from the tail. -/
def pagerAddGroup {H S G Pg : Type} (P : SetPager H S G Pg)
    (st : PagerState S G) (g : G) : PagerState S G × List Pg :=
  match (pagerMergeGroups P st.groups g).getLast? with
  | none => (⟨st.set, pagerMergeGroups P st.groups g, st.total + P.size g⟩, [])
  | some tail =>
    let r := evictPages P (P.size tail + 1) st.set tail []
    (⟨r.1, (pagerMergeGroups P st.groups g).dropLast ++ [r.2.1], st.total + P.size g⟩,
     r.2.2)

/-- One completed run of the pager for a single source: `StartSet(head)`,
a sequence of `AddGroup` calls, then `Flush`.  Returns the emitted set and
the emitted pages in emission order. -/
def pagerRun {H S G Pg : Type} (P : SetPager H S G Pg) (head : H) (gs : List G) :
    S × List Pg :=
  let init : PagerState S G × List Pg := (⟨P.newSet head, [], 0⟩, [])
  let fin := gs.foldl (fun acc g =>
    let r := pagerAddGroup P acc.1 g
    (r.1, acc.2 ++ r.2)) init
  (P.outputSet fin.1.total fin.1.set fin.1.groups, fin.2)

/-! ### Edge-set builder and cross-reference builder -/

/-- `assemble.newPageKey`: `fmt.Sprintf("%s.%.10d", src, n)`. -/
def newPageKey (src : String) (n : Nat) : String :=
  let ds := toString n
  src ++ "." ++ (⟨List.replicate (10 - ds.length) '0'⟩ : String) ++ ds

/-- `EdgeSetBuilder.constructPager`: the edge-set instantiation of the pager
(`assemble.go`). -/
def edgeSetPager (maxEdgePageSize : Int) : SetPager Node PagedEdgeSet EdgeGroup EdgePage where
  maxPageSize := maxEdgePageSize
  newSet := fun hd => { source := hd, group := [], pageIndex := [], totalEdges := 0 }
  combine := fun l r =>
    if l.kind = r.kind then some { kind := l.kind, edge := l.edge ++ r.edge } else none
  split := fun sz g =>
    ({ kind := g.kind, edge := g.edge.take sz }, { kind := g.kind, edge := g.edge.drop sz })
  size := fun g => g.edge.length
  outputSet := fun total s grps =>
    { s with
      group := grps.mergeSort fun a b => !edgeKindLess b.kind a.kind
      pageIndex := s.pageIndex.mergeSort fun a b => !edgeKindLess b.edgeKind a.edgeKind
      totalEdges := total }
  outputPage := fun s g =>
    let key := newPageKey s.source.ticket s.pageIndex.length
    ({ s with pageIndex :=
        s.pageIndex ++ [{ pageKey := key, edgeKind := g.kind, edgeCount := g.edge.length }] },
     { pageKey := key, sourceTicket := s.source.ticket, edgesGroup := g })

/-- A completed `EdgeSetBuilder` run for one source: `StartEdgeSet`, the
`AddGroup` calls, then `Flush`. -/
def runEdgeSetBuilder (maxSize : Int) (src : Node) (gs : List EdgeGroup) :
    PagedEdgeSet × List EdgePage :=
  pagerRun (edgeSetPager maxSize) src gs

/-- `CrossReferencesBuilder.constructPager` (`assemble.go`). -/
def xrefPager (maxPageSize : Int) :
    SetPager Node PagedCrossReferences XRefGroup XRefPage where
  maxPageSize := maxPageSize
  newSet := fun n =>
    { sourceTicket := n.ticket
      incomplete := n.fact.any fun f => f.name = CompleteFact && f.value ≠ "definition"
      group := [], pageIndex := [], totalReferences := 0 }
  combine := fun l r =>
    if l.kind = r.kind then some { kind := l.kind, anchor := l.anchor ++ r.anchor } else none
  split := fun sz g =>
    ({ kind := g.kind, anchor := g.anchor.take sz }, { kind := g.kind, anchor := g.anchor.drop sz })
  size := fun g => g.anchor.length
  outputSet := fun total s grps =>
    { s with
      group := grps.mergeSort fun a b => !edgeKindLess b.kind a.kind
      pageIndex := s.pageIndex.mergeSort fun a b => !edgeKindLess b.kind a.kind
      totalReferences := total }
  outputPage := fun s g =>
    let key := newPageKey s.sourceTicket s.pageIndex.length
    ({ s with pageIndex :=
        s.pageIndex ++ [{ pageKey := key, kind := g.kind, count := g.anchor.length }] },
     { pageKey := key, sourceTicket := s.sourceTicket, group := g })

/-- A completed `CrossReferencesBuilder` run for one source. -/
def runCrossReferencesBuilder (maxSize : Int) (src : Node) (gs : List XRefGroup) :
    PagedCrossReferences × List XRefPage :=
  pagerRun (xrefPager maxSize) src gs

/-! ### Derived quantities used by the statements -/

/-- The page-index entry recorded for an emitted page. -/
def pidxOf (pg : EdgePage) : PageIndex :=
  ⟨pg.pageKey, pg.edgesGroup.kind, pg.edgesGroup.edge.length⟩

def sumGroups (l : List EdgeGroup) : Nat := (l.map fun g => g.edge.length).sum

def sumPages (l : List EdgePage) : Nat := (l.map fun p => p.edgesGroup.edge.length).sum

def sumIdx (l : List PageIndex) : Nat := (l.map fun i => i.edgeCount).sum

/-- The kinds that the assemblers actually emit: no ordinal suffix, no upper
case — canonicalization only strips the reverse marker.  Both the schema's
constant kinds and their mirrors satisfy this. -/
def EmittedKind (k : String) : Prop := Canonicalize k = stripMarker k

instance (k : String) : Decidable (EmittedKind k) := by
  unfold EmittedKind; infer_instance

/-! ### Order-theoretic scaffolding for the edge-kind comparator

These definitions are not part of the program; they package the decision
structure of `ordLoop`/`edgeKindLess` into a numeric key so that the order
properties can be stated and proved. -/

/-- Position at which the priority loop decides a canonical kind: `0` when it
equals the current entry, `1` when it is a variant of it, and two more for
each entry that passes it by. -/
def loopRank : List String → String → Nat
  | [], _ => 0
  | e :: rest, k => if k = e then 0 else if IsEdgeVariant k e then 1 else 2 + loopRank rest k

def anchorBit (k : String) : Nat := if IsAnchorEdge k then 0 else 1

def revBit (k : String) : Nat := if isReverseKind k then 1 else 0

/-- Numeric part of the sort key of a kind: anchor-ness, then direction, then
priority rank. -/
def kindKeyNum (k : String) : Nat :=
  (anchorBit k * 2 + revBit k) * 16 + loopRank edgeOrdering (Canonicalize k)

/-- The strict order that `edgeKindLess` implements on emitted kinds:
lexicographic on the numeric key and the canonical form. -/
def KindKeyLt (a b : String) : Prop :=
  kindKeyNum a < kindKeyNum b ∨
    (kindKeyNum a = kindKeyNum b ∧ Canonicalize a < Canonicalize b)

/-- Emitted pages carry their source's ticket and densely numbered page keys
(ordinal = position in emission order). -/
def pagesSpec (ticket : String) (pages : List EdgePage) : Prop :=
  ∀ i : Fin pages.length,
    (pages.get i).pageKey = newPageKey ticket i.1 ∧ (pages.get i).sourceTicket = ticket

/-- Invariant of the edge-set builder between `AddGroup` calls: the set under
construction still has its head and empty output fields, its page index
mirrors the pages emitted so far, the running total accounts pages plus
buffered groups, and every kind seen satisfies `K`. -/
def EsInv (head : Node) (K : String → Prop) (st : PagerState PagedEdgeSet EdgeGroup)
    (pages : List EdgePage) : Prop :=
  st.set.source = head ∧ st.set.group = [] ∧ st.set.totalEdges = 0
  ∧ st.set.pageIndex = pages.map pidxOf
  ∧ pagesSpec head.ticket pages
  ∧ st.total = sumPages pages + sumGroups st.groups
  ∧ (∀ g ∈ st.groups, K g.kind) ∧ (∀ pg ∈ pages, K pg.edgesGroup.kind)

instance {ε α : Type} [DecidableEq ε] [DecidableEq α] : DecidableEq (Except ε α) := fun x y =>
  match x, y with
  | .error a, .error b =>
    if h : a = b then isTrue (by rw [h]) else isFalse (by intro hc; cases hc; exact h rfl)
  | .ok a, .ok b =>
    if h : a = b then isTrue (by rw [h]) else isFalse (by intro hc; cases hc; exact h rfl)
  | .error _, .ok _ => isFalse fun hc => Except.noConfusion hc
  | .ok _, .error _ => isFalse fun hc => Except.noConfusion hc

/-! ### Fixtures used by the witnesses -/

def fooBarBaz : List Char := "foo\nbar\nbaz".data

def barFile : File := ⟨"kythe://c?path=f", fooBarBaz, "utf-8"⟩

def barNorm : Normalizer := ⟨fooBarBaz⟩

def barAnchor : RawAnchor := ⟨"kythe://c?path=f#a", 4, 7, 0, 0⟩

def barDecoration : Decoration :=
  ⟨barAnchor, RefEdge, ⟨"T", [⟨CompleteFact, "definition"⟩, ⟨TextFact, "xyz"⟩]⟩⟩

def barExpanded : ExpandedAnchor :=
  { ticket := "kythe://c?path=f#a", kind := "%/kythe/edge/ref", parent := "kythe://c?path=f",
    text := "bar", span := ⟨⟨4, 2, 0⟩, ⟨7, 2, 3⟩⟩,
    snippet := "bar", snippetSpan := ⟨⟨4, 2, 0⟩, ⟨7, 2, 3⟩⟩ }

/-! ### Helper lemmas -/

theorem filterTextFactList_eq_filter (l : List Fact) :
    filterTextFactList l =
      l.filter fun f => !(f.name == TextFact || f.name == TextEncodingFact) := by
  induction l with
  | nil => rfl
  | cons f rest ih =>
    by_cases h : f.name = TextFact ∨ f.name = TextEncodingFact
    · have hif : ¬(¬f.name = TextFact ∧ ¬f.name = TextEncodingFact) := by tauto
      simp [filterTextFactList, h, ih, hif]
    · have hif := not_or.mp h
      simp [filterTextFactList, h, ih, hif.1, hif.2]

theorem completeFactsOf_eq_filter (l : List Fact) :
    completeFactsOf l = l.filter fun f => f.name == CompleteFact := by
  induction l with
  | nil => rfl
  | cons f rest ih => by_cases h : f.name = CompleteFact <;> simp [completeFactsOf, h, ih]

theorem expandAnchor_ok_kind {a : RawAnchor} {f : File} {nm : Normalizer} {k : String}
    {ea : ExpandedAnchor} (h : ExpandAnchor a f nm k = .ok ea) : ea.kind = k := by
  unfold ExpandAnchor at h
  cases hc : checkSpan f.text.length a.startOffset a.endOffset with
  | error e => rw [hc] at h; simp at h
  | ok u =>
    rw [hc] at h
    simp only [getText] at h
    by_cases hs : a.snippetStart ≠ 0 ∨ a.snippetEnd ≠ 0
    · rw [if_pos hs] at h
      cases hc2 : checkSpan f.text.length a.snippetStart a.snippetEnd with
      | error e => rw [hc2] at h; simp at h
      | ok u2 =>
        rw [hc2] at h
        simp only [Except.ok.injEq] at h
        rw [← h]
    · rw [if_neg hs] at h
      by_cases hnl : (nm.pointForLine ((nm.byteOffsetPoint a.startOffset).lineNumber + 1)).byteOffset ≤
          (nm.byteOffsetPoint a.startOffset).byteOffset - (nm.byteOffsetPoint a.startOffset).columnOffset
      · rw [if_pos hnl] at h; simp at h
      · rw [if_neg hnl] at h
        simp only [Except.ok.injEq] at h
        rw [← h]

theorem dfbFlush_of_no_parents {st : DFBState} (hp : st.parents = []) :
    dfbFlush st = (emptyDFB, []) := by
  simp [dfbFlush, hp]

theorem dfbAddEdge_nonheader_empty (e : SrvEdge) (h : e.target ≠ none) :
    dfbAddEdge emptyDFB e = (emptyDFB, []) := by
  cases ht : e.target with
  | none => exact absurd ht h
  | some tgt => simp [dfbAddEdge, ht, emptyDFB]

theorem dfbRun_nonheader (es : List SrvEdge) (h : ∀ e ∈ es, e.target ≠ none) :
    dfbRun emptyDFB es = (emptyDFB, []) := by
  induction es with
  | nil => rfl
  | cons e rest ih =>
    have he := dfbAddEdge_nonheader_empty e (h e (by simp))
    have ih' := ih fun e' he' => h e' (by simp [he'])
    simp only [dfbRun, List.foldl_cons] at ih' ⊢
    simpa [he] using ih'

/-! ### Order properties of the edge-kind comparator -/

theorem loopRank_le (es : List String) (k : String) : loopRank es k ≤ 2 * es.length := by
  induction es with
  | nil => simp [loopRank]
  | cons e rest ih =>
    simp only [loopRank, List.length_cons]
    split
    · omega
    · split
      · omega
      · omega

theorem shiftTwo_iff {r1 r2 : Nat} {p : Prop} :
    (2 + r1 < 2 + r2 ∨ (2 + r1 = 2 + r2 ∧ p)) ↔ (r1 < r2 ∨ (r1 = r2 ∧ p)) := by
  constructor <;> rintro (h | ⟨h, hp⟩)
  · left; omega
  · right; exact ⟨by omega, hp⟩
  · left; omega
  · right; exact ⟨by omega, hp⟩

theorem ordLoop_iff (es : List String) (k1 k2 : String) (hne : k1 ≠ k2) :
    ordLoop es k1 k2 = true ↔
      (loopRank es k1 < loopRank es k2 ∨
        (loopRank es k1 = loopRank es k2 ∧ k1 < k2)) := by
  induction es with
  | nil => simp [ordLoop, loopRank]
  | cons e rest ih =>
    by_cases h1 : k1 = e
    · have h2 : k2 ≠ e := fun h => hne (h1.trans h.symm)
      have el : ordLoop (e :: rest) k1 k2 = true := by simp [ordLoop, h1, h2]
      have e1 : loopRank (e :: rest) k1 = 0 := by simp [loopRank, h1]
      have e2 : 0 < loopRank (e :: rest) k2 := by
        simp only [loopRank, if_neg h2]
        split <;> omega
      rw [el, e1]
      constructor
      · intro _; left; exact e2
      · intro _; rfl
    · by_cases h2 : k2 = e
      · have el : ordLoop (e :: rest) k1 k2 = false := by simp [ordLoop, h1, h2]
        have e2 : loopRank (e :: rest) k2 = 0 := by simp [loopRank, h2]
        have e1 : 0 < loopRank (e :: rest) k1 := by
          simp only [loopRank, if_neg h1]
          split <;> omega
        rw [el, e2]
        constructor
        · intro h; exact Bool.noConfusion h
        · rintro (h | ⟨h, _⟩) <;> omega
      · cases hv1 : IsEdgeVariant k1 e <;> cases hv2 : IsEdgeVariant k2 e
        · have el : ordLoop (e :: rest) k1 k2 = ordLoop rest k1 k2 := by
            simp [ordLoop, h1, h2, hv1, hv2]
          have e1 : loopRank (e :: rest) k1 = 2 + loopRank rest k1 := by
            simp [loopRank, h1, hv1]
          have e2 : loopRank (e :: rest) k2 = 2 + loopRank rest k2 := by
            simp [loopRank, h2, hv2]
          rw [el, e1, e2]
          exact ih.trans shiftTwo_iff.symm
        · have el : ordLoop (e :: rest) k1 k2 = false := by
            simp [ordLoop, h1, h2, hv1, hv2]
          have e1 : loopRank (e :: rest) k1 = 2 + loopRank rest k1 := by
            simp [loopRank, h1, hv1]
          have e2 : loopRank (e :: rest) k2 = 1 := by
            simp [loopRank, h2, hv2]
          rw [el, e1, e2]
          constructor
          · intro h; exact Bool.noConfusion h
          · rintro (h | ⟨h, _⟩) <;> omega
        · have el : ordLoop (e :: rest) k1 k2 = true := by
            simp [ordLoop, h1, h2, hv1, hv2]
          have e1 : loopRank (e :: rest) k1 = 1 := by
            simp [loopRank, h1, hv1]
          have e2 : loopRank (e :: rest) k2 = 2 + loopRank rest k2 := by
            simp [loopRank, h2, hv2]
          rw [el, e1, e2]
          constructor
          · intro _; left; omega
          · intro _; rfl
        · have el : ordLoop (e :: rest) k1 k2 = decide (k1 < k2) := by
            simp [ordLoop, h1, h2, hv1, hv2]
          have e1 : loopRank (e :: rest) k1 = 1 := by
            simp [loopRank, h1, hv1]
          have e2 : loopRank (e :: rest) k2 = 1 := by
            simp [loopRank, h2, hv2]
          rw [el, e1, e2]
          simp

theorem isReverse_data {a : String} (h : isReverseKind a = true) :
    ∃ t, a.data = '%' :: t := by
  unfold isReverseKind hasPrefixStr at h
  rw [show (reverseEdgeMarker.data) = ['%'] from rfl] at h
  cases hd : a.data with
  | nil => rw [hd] at h; exact Bool.noConfusion h
  | cons c cs =>
    rw [hd] at h
    simp [List.isPrefixOf] at h
    exact ⟨cs, by rw [h]⟩

theorem emitted_inj {a b : String} (ha : EmittedKind a) (hb : EmittedKind b)
    (hrev : isReverseKind a = isReverseKind b) (hcan : Canonicalize a = Canonicalize b) :
    a = b := by
  rw [EmittedKind] at ha hb
  rw [ha, hb] at hcan
  cases hr : isReverseKind a with
  | false =>
    have hrb : isReverseKind b = false := by rw [← hrev, hr]
    rw [stripMarker, if_neg (by simp [hr]), stripMarker, if_neg (by simp [hrb])] at hcan
    exact hcan
  | true =>
    have hrb : isReverseKind b = true := hrev.symm.trans hr
    obtain ⟨ta, hda⟩ := isReverse_data hr
    obtain ⟨tb, hdb⟩ := isReverse_data hrb
    rw [stripMarker, if_pos (by simp [hr]), stripMarker, if_pos (by simp [hrb])] at hcan
    have hdrop : a.data.drop 1 = b.data.drop 1 := congrArg String.data hcan
    have : a.data = b.data := by
      rw [hda, hdb] at hdrop ⊢
      simpa using hdrop
    cases a; cases b
    exact congrArg String.mk this

theorem loopRank_edgeOrdering_le (k : String) : loopRank edgeOrdering k ≤ 10 := by
  have := loopRank_le edgeOrdering k
  simpa [edgeOrdering] using this

theorem edgeKindLess_iff_keyLt {a b : String} (ha : EmittedKind a) (hb : EmittedKind b)
    (hne : a ≠ b) : edgeKindLess a b = true ↔ KindKeyLt a b := by
  have bra := loopRank_edgeOrdering_le (Canonicalize a)
  have brb := loopRank_edgeOrdering_le (Canonicalize b)
  unfold edgeKindLess KindKeyLt kindKeyNum anchorBit revBit
  rw [if_neg hne]
  by_cases hA : IsAnchorEdge a = IsAnchorEdge b
  · rw [if_neg (by simp [hA]), hA]
    by_cases hR : isReverseKind a = isReverseKind b
    · rw [if_neg (by simp [hR]), hR]
      have hcne : Canonicalize a ≠ Canonicalize b := fun hc => hne (emitted_inj ha hb hR hc)
      rw [ordLoop_iff _ _ _ hcne]
      constructor
      · rintro (h | ⟨h, hlt⟩)
        · left; omega
        · right; exact ⟨by omega, hlt⟩
      · rintro (h | ⟨h, hlt⟩)
        · left; omega
        · right; exact ⟨by omega, hlt⟩
    · rw [if_pos hR]
      cases hva : isReverseKind a <;> cases hvb : isReverseKind b
      · exact absurd (hva.trans hvb.symm) hR
      · simp only [show (if (false : Bool) = true then 1 else 0) = 0 from rfl,
          show (if (true : Bool) = true then 1 else 0) = 1 from rfl, if_true, if_false]
        constructor
        · intro _; left; omega
        · intro _; rfl
      · simp only [show (if (false : Bool) = true then 1 else 0) = 0 from rfl,
          show (if (true : Bool) = true then 1 else 0) = 1 from rfl, if_true, if_false]
        constructor
        · intro h; exact Bool.noConfusion h
        · rintro (h | ⟨h, _⟩) <;> omega
      · exact absurd (hva.trans hvb.symm) hR
  · rw [if_pos hA]
    cases haa : IsAnchorEdge a <;> cases hab : IsAnchorEdge b
    · exact absurd (haa.trans hab.symm) hA
    · have r1 : (if isReverseKind a = true then 1 else 0) ≤ 1 := by split <;> omega
      have r2 : (if isReverseKind b = true then 1 else 0) ≤ 1 := by split <;> omega
      simp only [show (if (false : Bool) = true then 1 else 0) = 0 from rfl,
        show (if (true : Bool) = true then 1 else 0) = 1 from rfl,
        show (if (false : Bool) = true then 0 else 1) = 1 from rfl,
        show (if (true : Bool) = true then 0 else 1) = 0 from rfl, if_true, if_false]
      constructor
      · intro h; exact Bool.noConfusion h
      · rintro (h | ⟨h, _⟩) <;> omega
    · have r1 : (if isReverseKind a = true then 1 else 0) ≤ 1 := by split <;> omega
      have r2 : (if isReverseKind b = true then 1 else 0) ≤ 1 := by split <;> omega
      simp only [show (if (false : Bool) = true then 1 else 0) = 0 from rfl,
        show (if (true : Bool) = true then 1 else 0) = 1 from rfl,
        show (if (false : Bool) = true then 0 else 1) = 1 from rfl,
        show (if (true : Bool) = true then 0 else 1) = 0 from rfl, if_true, if_false]
      constructor
      · intro _; left; omega
      · intro _; trivial
    · exact absurd (haa.trans hab.symm) hA

theorem keyLt_trans {a b c : String} (h1 : KindKeyLt a b) (h2 : KindKeyLt b c) :
    KindKeyLt a c := by
  rcases h1 with h | ⟨h, hs⟩ <;> rcases h2 with h' | ⟨h', hs'⟩
  · left; omega
  · left; omega
  · left; omega
  · right; exact ⟨h.trans h', lt_trans hs hs'⟩

theorem keyLt_asymm {a b : String} (h1 : KindKeyLt a b) : ¬KindKeyLt b a := by
  rcases h1 with h | ⟨h, hs⟩ <;> rintro (h' | ⟨h', hs'⟩)
  · omega
  · omega
  · omega
  · exact absurd (lt_trans hs hs') (lt_irrefl _)

theorem keyNum_rev {a b : String} (hk : kindKeyNum a = kindKeyNum b) :
    isReverseKind a = isReverseKind b := by
  unfold kindKeyNum anchorBit revBit at hk
  have b1 := loopRank_edgeOrdering_le (Canonicalize a)
  have b2 := loopRank_edgeOrdering_le (Canonicalize b)
  cases haa : IsAnchorEdge a <;> cases hab : IsAnchorEdge b <;>
    cases hva : isReverseKind a <;> cases hvb : isReverseKind b <;>
    simp [haa, hab, hva, hvb] at hk ⊢ <;> omega

theorem keyLt_connex {a b : String} (ha : EmittedKind a) (hb : EmittedKind b)
    (hne : a ≠ b) : KindKeyLt a b ∨ KindKeyLt b a := by
  by_cases hk : kindKeyNum a = kindKeyNum b
  · have hrev := keyNum_rev hk
    have hcan : Canonicalize a ≠ Canonicalize b := fun hc => hne (emitted_inj ha hb hrev hc)
    rcases lt_trichotomy (Canonicalize a) (Canonicalize b) with h | h | h
    · exact Or.inl (Or.inr ⟨hk, h⟩)
    · exact absurd h hcan
    · exact Or.inr (Or.inr ⟨hk.symm, h⟩)
  · rcases Nat.lt_or_ge (kindKeyNum a) (kindKeyNum b) with h | h
    · exact Or.inl (Or.inl h)
    · exact Or.inr (Or.inl (by omega))

theorem less_asymm_em {a b : String} (ha : EmittedKind a) (hb : EmittedKind b)
    (h : edgeKindLess a b = true) : edgeKindLess b a = false := by
  by_cases hne : a = b
  · subst hne; simp [edgeKindLess] at h
  · cases hl : edgeKindLess b a
    · rfl
    · exact absurd ((edgeKindLess_iff_keyLt hb ha (Ne.symm hne)).1 hl)
        (keyLt_asymm ((edgeKindLess_iff_keyLt ha hb hne).1 h))

theorem less_trans_em {a b c : String} (ha : EmittedKind a) (hb : EmittedKind b)
    (hc : EmittedKind c) (h1 : edgeKindLess a b = true) (h2 : edgeKindLess b c = true) :
    edgeKindLess a c = true := by
  have hab : a ≠ b := by rintro rfl; simp [edgeKindLess] at h1
  have hbc : b ≠ c := by rintro rfl; simp [edgeKindLess] at h2
  by_cases hac : a = c
  · subst hac
    rw [less_asymm_em ha hb h1] at h2
    exact Bool.noConfusion h2
  · exact (edgeKindLess_iff_keyLt ha hc hac).2
      (keyLt_trans ((edgeKindLess_iff_keyLt ha hb hab).1 h1)
        ((edgeKindLess_iff_keyLt hb hc hbc).1 h2))

theorem less_connex_em {a b : String} (ha : EmittedKind a) (hb : EmittedKind b)
    (hne : a ≠ b) : edgeKindLess a b = true ∨ edgeKindLess b a = true := by
  rcases keyLt_connex ha hb hne with h | h
  · exact Or.inl ((edgeKindLess_iff_keyLt ha hb hne).2 h)
  · exact Or.inr ((edgeKindLess_iff_keyLt hb ha (Ne.symm hne)).2 h)

theorem edgeLe_trans_em {a b c : String} (ha : EmittedKind a) (hb : EmittedKind b)
    (hc : EmittedKind c) (h1 : (!edgeKindLess b a) = true) (h2 : (!edgeKindLess c b) = true) :
    (!edgeKindLess c a) = true := by
  simp only [Bool.not_eq_true'] at h1 h2 ⊢
  cases hl : edgeKindLess c a
  · rfl
  · exfalso
    by_cases hca : c = a
    · subst hca; simp [edgeKindLess] at hl
    · by_cases hab : a = b
      · subst hab; rw [h2] at hl; exact Bool.noConfusion hl
      · by_cases hbc : b = c
        · subst hbc; rw [h1] at hl; exact Bool.noConfusion hl
        · rcases less_connex_em ha hb hab with h | h
          · rcases less_connex_em hb hc hbc with h' | h'
            · have hax := less_trans_em ha hb hc h h'
              rw [less_asymm_em ha hc hax] at hl
              exact Bool.noConfusion hl
            · rw [h2] at h'; exact Bool.noConfusion h'
          · rw [h1] at h; exact Bool.noConfusion h

theorem edgeLe_total_em {a b : String} (ha : EmittedKind a) (hb : EmittedKind b) :
    ((!edgeKindLess b a) || (!edgeKindLess a b)) = true := by
  cases h1 : edgeKindLess b a
  · simp
  · cases h2 : edgeKindLess a b
    · simp
    · rw [less_asymm_em hb ha h1] at h2
      exact Bool.noConfusion h2

/-- Sortedness of `mergeSort` when the comparison is transitive and total
only on a set containing the list's elements (lifted through the subtype). -/
theorem sorted_mergeSort_of_mem {α : Type} (le : α → α → Bool) (P : α → Prop)
    (htrans : ∀ a b c, P a → P b → P c → le a b = true → le b c = true → le a c = true)
    (htotal : ∀ a b, P a → P b → (le a b || le b a) = true)
    (l : List α) (hl : ∀ a ∈ l, P a) :
    (l.mergeSort le).Pairwise fun a b => le a b = true := by
  let l' : List {a // P a} := l.attach.map fun x => ⟨x.1, hl x.1 x.2⟩
  have hmap : l'.map Subtype.val = l := by
    simp [l']
  have hs : (l'.mergeSort fun a b : {a // P a} => le a.1 b.1).Pairwise
      (fun a b : {a // P a} => le a.1 b.1 = true) :=
    List.sorted_mergeSort
      (fun a b c => htrans a.1 b.1 c.1 a.2 b.2 c.2) (fun a b => htotal a.1 b.1 a.2 b.2) l'
  have hmm : ((l'.mergeSort fun a b : {a // P a} => le a.1 b.1).map Subtype.val) =
      ((l'.map Subtype.val).mergeSort le) :=
    List.map_mergeSort fun a _ b _ => rfl
  rw [hmap] at hmm
  rw [← hmm]
  exact hs.map _ fun a b h => h

/-- C5: the comparator `edgeKindLess` is antisymmetric, transitive and total
(a strict total order) over the emitted edge kinds, and satisfies the four
given concrete instances. -/
theorem C5_edge_kind_order :
    (∀ a b, EmittedKind a → EmittedKind b →
        edgeKindLess a b = true → edgeKindLess b a = false)
    ∧ (∀ a b c, EmittedKind a → EmittedKind b → EmittedKind c →
        edgeKindLess a b = true → edgeKindLess b c = true → edgeKindLess a c = true)
    ∧ (∀ a b, EmittedKind a → EmittedKind b → a ≠ b →
        edgeKindLess a b = true ∨ edgeKindLess b a = true)
    ∧ edgeKindLess "/kythe/edge/defines" "/kythe/edge/documents" = true
    ∧ edgeKindLess "/kythe/edge/defines" "%/kythe/edge/defines" = true
    ∧ edgeKindLess "/kythe/edge/defines/binding" "/kythe/edge/defines" = false
    ∧ edgeKindLess "/kythe/edge/ref" "/kythe/edge/zzz" = true :=
  ⟨fun _ _ ha hb h => less_asymm_em ha hb h,
   fun _ _ _ ha hb hc h1 h2 => less_trans_em ha hb hc h1 h2,
   fun _ _ ha hb hne => less_connex_em ha hb hne,
   by decide, by decide, by decide, by decide⟩

/-- Witness for C5: the order properties applied at concrete emitted kinds. -/
theorem C5_edge_kind_order_witness :
    (EmittedKind "/kythe/edge/defines" ∧ EmittedKind "%/kythe/edge/defines"
      ∧ EmittedKind "/kythe/edge/documents")
    ∧ edgeKindLess "%/kythe/edge/defines" "/kythe/edge/defines" = false
    ∧ (edgeKindLess "/kythe/edge/defines" "/kythe/edge/documents" = true ∨
        edgeKindLess "/kythe/edge/documents" "/kythe/edge/defines" = true) :=
  ⟨⟨by decide, by decide, by decide⟩,
   C5_edge_kind_order.1 "/kythe/edge/defines" "%/kythe/edge/defines"
     (by decide) (by decide) (by decide),
   C5_edge_kind_order.2.2.1 "/kythe/edge/defines" "/kythe/edge/documents"
     (by decide) (by decide) (by decide)⟩

/-! ### Claim C2: `SourceFromEntries` -/

theorem lookupEdges_mk (t : String) (f : List (String × String))
    (es : List (String × List EdgeTarget)) (k : String) :
    lookupEdges ⟨t, f, es⟩ k = ((es.find? fun p => p.1 = k).map fun p => p.2).getD [] := rfl

theorem lookupFact_updateFacts (m : List (String × String)) (n v x : String) :
    lookupFact (updateFacts m n v) x = if n = x then some v else lookupFact m x := by
  induction m with
  | nil => rfl
  | cons p rest ih =>
    obtain ⟨pn, pv⟩ := p
    by_cases hp : pn = n
    · subst hp
      simp only [updateFacts, if_pos rfl, lookupFact]
      by_cases hx : pn = x
      · rw [if_pos hx, if_pos hx]
      · rw [if_neg hx, if_neg hx, if_neg hx]
    · simp only [updateFacts, if_neg hp, lookupFact]
      by_cases hx : pn = x
      · subst hx
        rw [if_pos rfl, if_pos rfl, if_neg fun h => hp h.symm]
      · rw [if_neg hx, if_neg hx, ih]

theorem getLast?_cons_or {α : Type} (a : α) (l : List α) :
    (a :: l).getLast? = match l.getLast? with | some y => some y | none => some a := by
  cases hl : l.getLast? with
  | none =>
    rw [List.getLast?_eq_none_iff] at hl
    subst hl
    rfl
  | some y =>
    obtain ⟨ys, rfl⟩ := List.getLast?_eq_some_iff.1 hl
    rw [show a :: (ys ++ [y]) = (a :: ys) ++ [y] from rfl, List.getLast?_concat]

theorem lookupFact_foldl (es : List Entry) (m : List (String × String)) (x : String) :
    lookupFact (es.foldl factStep m) x =
      match (es.filter fun e => !IsEdge e && e.factName == x).getLast? with
      | some e => some e.factValue
      | none => lookupFact m x := by
  induction es generalizing m with
  | nil => rfl
  | cons e rest ih =>
    rw [List.foldl_cons, ih]
    by_cases hE : IsEdge e
    · rw [show (e :: rest).filter (fun e => !IsEdge e && e.factName == x) =
          rest.filter (fun e => !IsEdge e && e.factName == x) by simp [List.filter_cons, hE]]
      rw [show factStep m e = m by simp [factStep, hE]]
    · by_cases hx : e.factName = x
      · rw [show (e :: rest).filter (fun e => !IsEdge e && e.factName == x) =
            e :: rest.filter (fun e => !IsEdge e && e.factName == x) by
          simp [List.filter_cons, hE, hx]]
        rw [getLast?_cons_or]
        rw [show factStep m e = updateFacts m e.factName e.factValue by simp [factStep, hE]]
        cases (rest.filter fun e => !IsEdge e && e.factName == x).getLast? with
        | some y => rfl
        | none => simp [lookupFact_updateFacts, hx]
      · rw [show (e :: rest).filter (fun e => !IsEdge e && e.factName == x) =
            rest.filter (fun e => !IsEdge e && e.factName == x) by
          simp [List.filter_cons, hx]]
        by_cases hEf : IsEdge e
        · exact absurd hEf hE
        · rw [show factStep m e = updateFacts m e.factName e.factValue by simp [factStep, hE]]
          cases (rest.filter fun e => !IsEdge e && e.factName == x).getLast? with
          | some y => rfl
          | none => simp [lookupFact_updateFacts, hx]

theorem byOrdinalLess_iff_lt {a b : EdgeTarget} :
    byOrdinalLess a b = true ↔
      toLex (a.ordinal, a.ticket) < toLex (b.ordinal, b.ticket) := by
  rw [Prod.Lex.lt_iff]
  unfold byOrdinalLess
  by_cases h : a.ordinal = b.ordinal <;> simp [h]

theorem byOrdinalLess_false_iff {a b : EdgeTarget} :
    byOrdinalLess a b = false ↔
      toLex (b.ordinal, b.ticket) ≤ toLex (a.ordinal, a.ticket) := by
  rw [← Bool.not_eq_true, byOrdinalLess_iff_lt, not_lt]

theorem edgeTarget_key_inj {a b : EdgeTarget}
    (h : toLex (a.ordinal, a.ticket) = toLex (b.ordinal, b.ticket)) : a = b := by
  have h' : (a.ordinal, a.ticket) = (b.ordinal, b.ticket) := congrArg ofLex h
  obtain ⟨x, y⟩ := a
  obtain ⟨x', y'⟩ := b
  simp only [Prod.mk.injEq] at h'
  simp [h'.1, h'.2]

theorem byOrdLe_trans (a b c : EdgeTarget) :
    (!byOrdinalLess b a) = true → (!byOrdinalLess c b) = true →
    (!byOrdinalLess c a) = true := by
  intro h1 h2
  rw [Bool.not_eq_true'] at h1 h2 ⊢
  rw [byOrdinalLess_false_iff] at h1 h2 ⊢
  exact le_trans h1 h2

theorem byOrdLe_total (a b : EdgeTarget) :
    ((!byOrdinalLess b a) || (!byOrdinalLess a b)) = true := by
  cases h1 : byOrdinalLess b a
  · simp
  · cases h2 : byOrdinalLess a b
    · simp
    · exact absurd (lt_trans (byOrdinalLess_iff_lt.1 h2) (byOrdinalLess_iff_lt.1 h1))
        (lt_irrefl _)

theorem kindTargets_nodup (trips : List (String × String × Int)) (hnd : trips.Nodup)
    (k : String) : (kindTargets trips k).Nodup := by
  refine List.Nodup.filterMap ?_ hnd
  intro a a' b hb hb'
  by_cases hk : a.1 = k
  · by_cases hk' : a'.1 = k
    · rw [if_pos hk] at hb
      rw [if_pos hk'] at hb'
      simp only [Option.mem_def, Option.some.injEq] at hb hb'
      obtain ⟨a1, a2, a3⟩ := a
      obtain ⟨b1, b2, b3⟩ := a'
      simp only at hk hk'
      subst hk hk'
      rw [← hb] at hb'
      simp only [EdgeTarget.mk.injEq] at hb'
      simp [hb'.1, hb'.2]
    · rw [if_neg hk'] at hb'
      exact absurd hb' (by simp)
  · rw [if_neg hk] at hb
    exact absurd hb (by simp)

theorem mem_kindTargets {trips : List (String × String × Int)} {k t : String} {o : Int} :
    (⟨t, o⟩ : EdgeTarget) ∈ kindTargets trips k ↔ (k, t, o) ∈ trips := by
  unfold kindTargets
  rw [List.mem_filterMap]
  constructor
  · rintro ⟨a, ha, hfa⟩
    by_cases hk : a.1 = k
    · rw [if_pos hk] at hfa
      obtain ⟨a1, a2, a3⟩ := a
      simp only at hk
      simp only [Option.some.injEq, EdgeTarget.mk.injEq] at hfa
      subst hk
      rw [show ((a1, a2, a3) : String × String × Int) = (a1, t, o) by simp [hfa.1, hfa.2]] at ha
      exact ha
    · rw [if_neg hk] at hfa
      exact Option.noConfusion hfa
  · intro h
    exact ⟨(k, t, o), h, by simp⟩

theorem mem_edgeTriples {entries : List Entry} {k t : String} {o : Int} :
    (k, t, o) ∈ edgeTriples entries ↔
      ∃ e ∈ entries, IsEdge e = true ∧ (ParseOrdinal e.edgeKind).1 = k ∧ e.target = t ∧
        (ParseOrdinal e.edgeKind).2.1 = o := by
  unfold edgeTriples
  rw [List.mem_map]
  constructor
  · rintro ⟨e, he, heq⟩
    rw [List.mem_filter] at he
    simp only [Prod.mk.injEq] at heq
    exact ⟨e, he.1, he.2, heq.1, heq.2.1, heq.2.2⟩
  · rintro ⟨e, he, hE, h1, h2, h3⟩
    exact ⟨e, List.mem_filter.2 ⟨he, hE⟩, by simp [h1, h2, h3]⟩

theorem find_kind_map (ks : List String) (f : String → List EdgeTarget) (k : String) :
    ((ks.map fun x => (x, f x)).find? fun p => p.1 = k) =
      if k ∈ ks then some (k, f k) else none := by
  induction ks with
  | nil => simp
  | cons a rest ih =>
    simp only [List.map_cons, List.find?_cons]
    by_cases ha : a = k
    · subst ha
      simp
    · have hka : (k ∈ a :: rest) ↔ (k ∈ rest) := by
        constructor
        · intro h
          rcases List.mem_cons.mp h with h | h
          · exact absurd h (fun hh => ha hh.symm)
          · exact h
        · exact fun h => List.mem_cons_of_mem _ h
      rw [show (decide ((a, f a).1 = k)) = false by simp [ha]]
      simp only [Bool.false_eq_true, if_false]
      rw [ih]
      by_cases hm : k ∈ rest
      · rw [if_pos hm, if_pos (hka.2 hm)]
      · rw [if_neg hm, if_neg (fun h => hm (hka.1 h))]

/-- C2: for a non-empty batch of entries, `SourceFromEntries` keeps the first
entry's source ticket, the last written value of each fact name, and, per
base edge kind, exactly the distinct (target, ordinal) pairs of the edge
entries, sorted strictly by (ordinal, ticket); an empty batch yields none. -/
theorem C2_source_from_entries :
    SourceFromEntries [] = none
    ∧ ∀ (e0 : Entry) (rest : List Entry),
        ∃ src, SourceFromEntries (e0 :: rest) = some src
          ∧ src.ticket = e0.source
          ∧ (∀ x, lookupFact src.facts x =
              (((e0 :: rest).filter fun e => !IsEdge e && e.factName == x).getLast?).map
                Entry.factValue)
          ∧ (∀ k, (lookupEdges src k).Pairwise fun a b =>
              a.ordinal < b.ordinal ∨ (a.ordinal = b.ordinal ∧ a.ticket < b.ticket))
          ∧ (∀ k t o, ((⟨t, o⟩ : EdgeTarget) ∈ lookupEdges src k ↔
              ∃ e ∈ e0 :: rest, IsEdge e = true ∧ (ParseOrdinal e.edgeKind).1 = k
                ∧ e.target = t ∧ (ParseOrdinal e.edgeKind).2.1 = o)) := by
  refine ⟨rfl, fun e0 rest => ⟨_, rfl, rfl, ?_, ?_, ?_⟩⟩
  · intro x
    rw [lookupFact_foldl]
    cases ((e0 :: rest).filter fun e => !IsEdge e && e.factName == x).getLast? <;> rfl
  · intro k
    rw [lookupEdges_mk, find_kind_map]
    by_cases hk : k ∈ edgeKindsOf ((edgeTriples (e0 :: rest)).dedup)
    · rw [if_pos hk]
      simp only [Option.map_some', Option.getD_some]
      have hsorted : ((kindTargets ((edgeTriples (e0 :: rest)).dedup) k).mergeSort
          fun a b => !byOrdinalLess b a).Pairwise
            (fun a b => (!byOrdinalLess b a) = true) :=
        List.sorted_mergeSort byOrdLe_trans byOrdLe_total
          (kindTargets ((edgeTriples (e0 :: rest)).dedup) k)
      have hnd : (kindTargets ((edgeTriples (e0 :: rest)).dedup) k).Nodup :=
        kindTargets_nodup _ (List.nodup_dedup _) k
      have hnd' := ((List.mergeSort_perm
        (kindTargets ((edgeTriples (e0 :: rest)).dedup) k)
        (fun a b => !byOrdinalLess b a)).nodup_iff).2 hnd
      refine (hsorted.and hnd').imp ?_
      rintro a b ⟨hle, hne⟩
      rw [Bool.not_eq_true', byOrdinalLess_false_iff] at hle
      have hlt := lt_of_le_of_ne hle fun h => hne (edgeTarget_key_inj h.symm).symm
      rw [Prod.Lex.lt_iff] at hlt
      exact hlt
    · rw [if_neg hk]
      simp
  · intro k t o
    rw [lookupEdges_mk, find_kind_map]
    by_cases hk : k ∈ edgeKindsOf ((edgeTriples (e0 :: rest)).dedup)
    · rw [if_pos hk]
      simp only [Option.map_some', Option.getD_some]
      rw [List.mem_mergeSort, mem_kindTargets, List.mem_dedup, mem_edgeTriples]
    · rw [if_neg hk]
      simp only [Option.map_none', Option.getD_none, List.not_mem_nil, false_iff]
      rintro ⟨e, he, hE, h1, h2, h3⟩
      refine hk ?_
      unfold edgeKindsOf
      rw [List.mem_dedup, List.mem_map]
      exact ⟨(k, t, o), List.mem_dedup.2 (mem_edgeTriples.2 ⟨e, he, hE, h1, h2, h3⟩), rfl⟩

/-- Witness for C2 on a concrete batch with duplicate edges and a
re-written fact. -/
theorem C2_source_from_entries_witness :
    SourceFromEntries [] = none
    ∧ ∃ src, SourceFromEntries
        [⟨"src", "", "", "/kythe/text", "hi"⟩,
         ⟨"src", "/kythe/edge/ref.1", "tgt", "", ""⟩,
         ⟨"src", "", "", "/kythe/text", "bye"⟩] = some src
      ∧ src.ticket = "src"
      ∧ lookupFact src.facts "/kythe/text" = some "bye"
      ∧ (⟨"tgt", 1⟩ : EdgeTarget) ∈ lookupEdges src "/kythe/edge/ref" := by
  obtain ⟨src, hs, ht, hf, _, hm⟩ :=
    C2_source_from_entries.2 ⟨"src", "", "", "/kythe/text", "hi"⟩
      [⟨"src", "/kythe/edge/ref.1", "tgt", "", ""⟩,
       ⟨"src", "", "", "/kythe/text", "bye"⟩]
  refine ⟨C2_source_from_entries.1, src, hs, ht, ?_, ?_⟩
  · rw [hf "/kythe/text"]
    decide
  · exact (hm "/kythe/edge/ref" "tgt" 1).2
      ⟨⟨"src", "/kythe/edge/ref.1", "tgt", "", ""⟩, by decide, by decide, by decide,
        by decide, by decide⟩

/-! ### Claim C4: cross-reference incompleteness -/

theorem xref_evict_incomplete (N : Int) (fuel : Nat) (s : PagedCrossReferences)
    (g : XRefGroup) (acc : List XRefPage) :
    (evictPages (xrefPager N) fuel s g acc).1.incomplete = s.incomplete
    ∧ (evictPages (xrefPager N) fuel s g acc).1.sourceTicket = s.sourceTicket := by
  induction fuel generalizing s g acc with
  | zero => exact ⟨rfl, rfl⟩
  | succ n ih =>
    rw [evictPages]
    split
    · exact ⟨(ih _ _ _).1.trans rfl, (ih _ _ _).2.trans rfl⟩
    · exact ⟨rfl, rfl⟩

theorem xref_addGroup_incomplete (N : Int) (st : PagerState PagedCrossReferences XRefGroup)
    (g : XRefGroup) :
    (pagerAddGroup (xrefPager N) st g).1.set.incomplete = st.set.incomplete
    ∧ (pagerAddGroup (xrefPager N) st g).1.set.sourceTicket = st.set.sourceTicket := by
  rcases hl : (pagerMergeGroups (xrefPager N) st.groups g).getLast? with _ | tail <;>
    simp only [pagerAddGroup, hl]
  · trivial
  · exact ⟨(xref_evict_incomplete N _ st.set tail []).1,
      (xref_evict_incomplete N _ st.set tail []).2⟩

theorem xref_foldl_incomplete (N : Int) (gs : List XRefGroup)
    (acc : PagerState PagedCrossReferences XRefGroup × List XRefPage) :
    ((gs.foldl (fun acc g =>
        let r := pagerAddGroup (xrefPager N) acc.1 g
        (r.1, acc.2 ++ r.2)) acc).1).set.incomplete = acc.1.set.incomplete
    ∧ ((gs.foldl (fun acc g =>
        let r := pagerAddGroup (xrefPager N) acc.1 g
        (r.1, acc.2 ++ r.2)) acc).1).set.sourceTicket = acc.1.set.sourceTicket := by
  induction gs generalizing acc with
  | nil => exact ⟨rfl, rfl⟩
  | cons g rest ih =>
    rw [List.foldl_cons]
    refine ⟨((ih _).1).trans ?_, ((ih _).2).trans ?_⟩
    · exact (xref_addGroup_incomplete N acc.1 g).1
    · exact (xref_addGroup_incomplete N acc.1 g).2

theorem xref_run_incomplete (N : Int) (head : Node) (gs : List XRefGroup) :
    (runCrossReferencesBuilder N head gs).1.incomplete =
      (head.fact.any fun f => f.name = CompleteFact && f.value ≠ "definition")
    ∧ (runCrossReferencesBuilder N head gs).1.sourceTicket = head.ticket := by
  unfold runCrossReferencesBuilder pagerRun
  simp only
  constructor
  · exact (xref_foldl_incomplete N gs _).1
  · exact (xref_foldl_incomplete N gs _).2

/-- C4: for every `CrossReferencesBuilder` run, the emitted
`PagedCrossReferences` has `incomplete` true exactly when the source node
carries a `/kythe/complete` fact whose value is not `"definition"`; in
particular, when the node carries the fact exactly once with value `v`,
`incomplete` is `v ≠ "definition"`. -/
theorem C4_xref_incomplete (N : Int) (head : Node) (gs : List XRefGroup) :
    ((runCrossReferencesBuilder N head gs).1.incomplete =
      (head.fact.any fun f => f.name = CompleteFact && f.value ≠ "definition"))
    ∧ (∀ v, ((head.fact.filter fun f => decide (f.name = CompleteFact)).map Fact.value = [v]) →
        (runCrossReferencesBuilder N head gs).1.incomplete = decide (v ≠ "definition")) := by
  refine ⟨(xref_run_incomplete N head gs).1, ?_⟩
  intro v hv
  rw [(xref_run_incomplete N head gs).1]
  have hany : (head.fact.any fun f => f.name = CompleteFact && f.value ≠ "definition") =
      (head.fact.filter fun f => decide (f.name = CompleteFact)).any
        fun f => decide (f.value ≠ "definition") := by
    rw [List.any_filter]
  rw [hany]
  cases hfl : head.fact.filter fun f => decide (f.name = CompleteFact) with
  | nil => rw [hfl] at hv; exact absurd hv (by simp)
  | cons f0 fs =>
    rw [hfl] at hv
    simp only [List.map_cons, List.cons.injEq] at hv
    have hfs : fs = [] := List.map_eq_nil_iff.1 hv.2
    subst hfs
    simp [hv.1]

/-- Witness for C4: a node carrying `/kythe/complete="incomplete"` yields
`incomplete = true`, and `/kythe/complete="definition"` yields `false`. -/
theorem C4_xref_incomplete_witness :
    (([⟨CompleteFact, "incomplete"⟩] : List Fact).filter
        (fun f => decide (f.name = CompleteFact))).map Fact.value = ["incomplete"]
    ∧ (runCrossReferencesBuilder 0 ⟨"n1", [⟨CompleteFact, "incomplete"⟩]⟩ []).1.incomplete = true
    ∧ (runCrossReferencesBuilder 0 ⟨"n2", [⟨CompleteFact, "definition"⟩]⟩ []).1.incomplete = false := by
  refine ⟨by decide, ?_, ?_⟩
  · rw [(C4_xref_incomplete 0 ⟨"n1", [⟨CompleteFact, "incomplete"⟩]⟩ []).2 "incomplete" (by decide)]
    decide
  · rw [(C4_xref_incomplete 0 ⟨"n2", [⟨CompleteFact, "definition"⟩]⟩ []).2 "definition" (by decide)]
    decide

/-! ### Claim C6: single-line snippet fallback -/

/-- C6: with zero snippet offsets and a valid span, `ExpandAnchor` falls
back to a single-line snippet: its start point is the anchor start's byte
offset minus its column offset (the start of the anchor's start line), its
end point is one byte before the next line's start, and the call fails with
"anchor past EOF" exactly when the next line's byte offset is at most the
snippet start. -/
theorem C6_snippet_fallback (a : RawAnchor) (file : File) (norm : Normalizer) (kind : String)
    (hss : a.snippetStart = 0) (hse : a.snippetEnd = 0)
    (hok : checkSpan file.text.length a.startOffset a.endOffset = .ok ()) :
    ((norm.pointForLine ((norm.byteOffsetPoint a.startOffset).lineNumber + 1)).byteOffset ≤
        (norm.byteOffsetPoint a.startOffset).byteOffset -
          (norm.byteOffsetPoint a.startOffset).columnOffset →
      ExpandAnchor a file norm kind = .error "anchor past EOF")
    ∧ ((norm.byteOffsetPoint a.startOffset).byteOffset -
          (norm.byteOffsetPoint a.startOffset).columnOffset <
        (norm.pointForLine ((norm.byteOffsetPoint a.startOffset).lineNumber + 1)).byteOffset →
      ExpandAnchor a file norm kind = .ok
        { ticket := a.ticket, kind := kind, parent := file.ticket
          text := textSlice file.text (norm.byteOffsetPoint a.startOffset).byteOffset
            (norm.byteOffsetPoint a.endOffset).byteOffset
          span := ⟨norm.byteOffsetPoint a.startOffset, norm.byteOffsetPoint a.endOffset⟩
          snippet := textSlice file.text
            ((norm.byteOffsetPoint a.startOffset).byteOffset -
              (norm.byteOffsetPoint a.startOffset).columnOffset)
            ((norm.pointForLine
                ((norm.byteOffsetPoint a.startOffset).lineNumber + 1)).byteOffset - 1)
          snippetSpan := ⟨
            ⟨(norm.byteOffsetPoint a.startOffset).byteOffset -
                (norm.byteOffsetPoint a.startOffset).columnOffset,
              (norm.byteOffsetPoint a.startOffset).lineNumber, 0⟩,
            ⟨(norm.pointForLine
                ((norm.byteOffsetPoint a.startOffset).lineNumber + 1)).byteOffset - 1,
              (norm.byteOffsetPoint a.startOffset).lineNumber,
              (norm.byteOffsetPoint a.startOffset).columnOffset +
                ((norm.pointForLine
                    ((norm.byteOffsetPoint a.startOffset).lineNumber + 1)).byteOffset -
                  (norm.byteOffsetPoint a.startOffset).byteOffset - 1)⟩⟩ }) := by
  constructor <;> intro h
  · simp only [ExpandAnchor, hok, getText]
    rw [if_neg (by simp [hss, hse]), if_pos h]
  · simp only [ExpandAnchor, hok, getText]
    rw [if_neg (by simp [hss, hse]), if_neg (not_le.mpr h)]

/-- Witness for C6: file text `foo\nbar\nbaz`, anchor span `[4,7)` with zero
snippet offsets expands to snippet `"bar"` with span `[4,7)`; an empty file
yields "anchor past EOF". -/
theorem C6_snippet_fallback_witness :
    ((⟨"kythe://c?path=f#a", 4, 7, 0, 0⟩ : RawAnchor).snippetStart = 0
      ∧ (⟨"kythe://c?path=f#a", 4, 7, 0, 0⟩ : RawAnchor).snippetEnd = 0
      ∧ checkSpan barFile.text.length 4 7 = .ok ())
    ∧ ExpandAnchor ⟨"kythe://c?path=f#a", 4, 7, 0, 0⟩ barFile barNorm "k" =
        .ok { ticket := "kythe://c?path=f#a", kind := "k", parent := "kythe://c?path=f",
              text := "bar", span := ⟨⟨4, 2, 0⟩, ⟨7, 2, 3⟩⟩,
              snippet := "bar", snippetSpan := ⟨⟨4, 2, 0⟩, ⟨7, 2, 3⟩⟩ }
    ∧ ExpandAnchor ⟨"e", 0, 0, 0, 0⟩ ⟨"ef", [], ""⟩ ⟨[]⟩ "k" =
        .error "anchor past EOF" := by
  refine ⟨⟨rfl, rfl, by decide⟩, ?_, ?_⟩
  · have h := (C6_snippet_fallback ⟨"kythe://c?path=f#a", 4, 7, 0, 0⟩ barFile barNorm "k"
      rfl rfl (by decide)).2 (by decide)
    exact h.trans (by decide)
  · exact (C6_snippet_fallback ⟨"e", 0, 0, 0, 0⟩ ⟨"ef", [], ""⟩ ⟨[]⟩ "k"
      rfl rfl (by decide)).1 (by decide)

/-! ### Claims C3, C7, C8, C9, C10 -/

/-- C3: `PartialReverseEdges(s)` returns a list whose first element is a
self-edge with source `s.Node()` and no kind and no target, followed by
exactly one edge per (kind, target, ordinal) triple of `s.Edges`, each with
source ticket the original target's ticket, kind the mirror of the original
kind, ordinal the original ordinal, and target `s`'s node with the text and
text-encoding facts removed and every other fact retained. -/
theorem C3_partial_reverse_edges (src : Source) :
    (PartialReverseEdges src).head? = some ⟨src.node, "", 0, none⟩
    ∧ (PartialReverseEdges src).tail =
        (sourceTriples src).map (fun kt =>
          (⟨⟨kt.2.ticket, []⟩, MirrorEdge kt.1, kt.2.ordinal,
            some (FilterTextFacts src.node)⟩ : SrvEdge))
    ∧ (FilterTextFacts src.node).ticket = src.node.ticket
    ∧ (FilterTextFacts src.node).fact =
        src.node.fact.filter fun f => !(f.name == TextFact || f.name == TextEncodingFact) := by
  refine ⟨rfl, ?_, rfl, filterTextFactList_eq_filter _⟩
  simp only [PartialReverseEdges, sourceTriples, List.tail_cons, List.map_flatMap,
    List.map_map]
  rfl

/-- C7: a header edge for a non-implicit anchor whose start or end offset
fact fails to parse is dropped: the builder keeps no anchor (state is fully
reset) and emits nothing beyond the flush of the previous state, so every
subsequent non-header edge is ignored until the next header; by contrast,
snippet offset facts that fail to parse default to 0 without dropping the
anchor. -/
theorem C7_anchor_parse_failure (st : DFBState) (e : SrvEdge)
    (hdr : e.target = none)
    (hkind : FactsToMap e.source.fact NodeKindFact = AnchorKind)
    (hsub : FactsToMap e.source.fact SubkindFact ≠ ImplicitSubkind)
    (hbad : goAtoi (FactsToMap e.source.fact AnchorStartFact) = none ∨
            goAtoi (FactsToMap e.source.fact AnchorEndFact) = none) :
    dfbAddEdge st e = (emptyDFB, (dfbFlush st).2)
    ∧ (∀ es : List SrvEdge, (∀ e' ∈ es, e'.target ≠ none) →
        dfbRun emptyDFB es = (emptyDFB, []))
    ∧ (∀ (st' : DFBState) (e' : SrvEdge) (s t : Int), e'.target = none →
        FactsToMap e'.source.fact NodeKindFact = AnchorKind →
        FactsToMap e'.source.fact SubkindFact ≠ ImplicitSubkind →
        goAtoi (FactsToMap e'.source.fact AnchorStartFact) = some s →
        goAtoi (FactsToMap e'.source.fact AnchorEndFact) = some t →
        goAtoi (FactsToMap e'.source.fact SnippetStartFact) = none →
        goAtoi (FactsToMap e'.source.fact SnippetEndFact) = none →
        (dfbAddEdge st' e').1.anchor = some ⟨e'.source.ticket, s, t, 0, 0⟩) := by
  refine ⟨?_, dfbRun_nonheader, ?_⟩
  · simp only [dfbAddEdge, hdr]
    rw [hkind]
    have hfa : AnchorKind ≠ FileKind := by decide
    rw [if_neg hfa, if_pos rfl, if_neg hsub]
    rcases hbad with hb | hb
    · rw [hb]
      rcases hx : goAtoi (FactsToMap e.source.fact AnchorEndFact) with _ | v <;> rfl
    · rcases hx : goAtoi (FactsToMap e.source.fact AnchorStartFact) with _ | v <;>
        rw [hb] <;> rfl
  · intro st' e' s t hdr' hkind' hsub' hs ht hss hse
    simp only [dfbAddEdge, hdr']
    rw [hkind']
    have hfa : AnchorKind ≠ FileKind := by decide
    rw [if_neg hfa, if_pos rfl, if_neg hsub', hs, ht, hss, hse]
    rfl

/-- C8: calling Flush twice in a row is a no-op after the first: the second
flush emits no output and leaves the builder state empty and unchanged. -/
theorem C8_flush_idempotent (st : DFBState) :
    dfbFlush ((dfbFlush st).1) = ((dfbFlush st).1, []) ∧ (dfbFlush st).1 = emptyDFB := by
  exact ⟨rfl, rfl⟩

/-- C9: Flush produces output only when both the accumulated decorations and
the parents list are non-empty; with no parents, flushing (directly or via a
header edge's implicit flush) silently discards the decorations, emitting
nothing. -/
theorem C9_flush_requires_parents (st : DFBState) :
    ((dfbFlush st).2 ≠ [] ↔ st.decor ≠ [] ∧ st.parents ≠ [])
    ∧ (st.parents = [] → dfbFlush st = (emptyDFB, []))
    ∧ (∀ e : SrvEdge, e.target = none → st.parents = [] →
        dfbAddEdge st e = dfbAddEdge emptyDFB e) := by
  refine ⟨?_, dfbFlush_of_no_parents, ?_⟩
  · unfold dfbFlush
    split
    case isTrue h => simp [h.1, h.2]
    case isFalse h => simp only [ne_eq]; simpa using h
  · intro e he hp
    simp only [dfbAddEdge, he]
    rw [dfbFlush_of_no_parents hp, show dfbFlush emptyDFB = (emptyDFB, []) from rfl]

/-- C10: for a decoration with a present parent file and normalizer whose
anchor expansion succeeds, `CrossReference` returns a referent keeping the
target's ticket and exactly its `/kythe/complete` facts, and a target anchor
whose kind is the mirror of the decoration's kind. -/
theorem C10_cross_reference (f : File) (nm : Normalizer) (d : Decoration)
    (ea : ExpandedAnchor)
    (h : ExpandAnchor d.anchor f nm (MirrorEdge d.kind) = .ok ea) :
    CrossReference (some f) (some nm) d =
      .ok ⟨⟨d.target.ticket, d.target.fact.filter fun fa => fa.name == CompleteFact⟩, ea⟩
    ∧ ea.kind = MirrorEdge d.kind := by
  refine ⟨?_, expandAnchor_ok_kind h⟩
  simp [CrossReference, h, completeFactsOf_eq_filter]

/-- Witness for C7 at a concrete malformed anchor header. -/
theorem C7_anchor_parse_failure_witness :
    (goAtoi (FactsToMap [⟨NodeKindFact, AnchorKind⟩, ⟨AnchorStartFact, "x"⟩]
        AnchorStartFact) = none ∨
      goAtoi (FactsToMap [⟨NodeKindFact, AnchorKind⟩, ⟨AnchorStartFact, "x"⟩]
        AnchorEndFact) = none)
    ∧ dfbAddEdge ⟨some ⟨"a", 0, 1, 0, 0⟩, [], ["p"]⟩
        ⟨⟨"n", [⟨NodeKindFact, AnchorKind⟩, ⟨AnchorStartFact, "x"⟩]⟩, "", 0, none⟩ =
        (emptyDFB, (dfbFlush ⟨some ⟨"a", 0, 1, 0, 0⟩, [], ["p"]⟩).2) :=
  ⟨Or.inl (by decide),
   (C7_anchor_parse_failure ⟨some ⟨"a", 0, 1, 0, 0⟩, [], ["p"]⟩
      ⟨⟨"n", [⟨NodeKindFact, AnchorKind⟩, ⟨AnchorStartFact, "x"⟩]⟩, "", 0, none⟩
      rfl (by decide) (by decide) (Or.inl (by decide))).1⟩

/-- Witness for C9 at a concrete state carrying decorations but no parents. -/
theorem C9_flush_requires_parents_witness :
    ([] : List String) = []
    ∧ dfbFlush ⟨some ⟨"a", 0, 1, 0, 0⟩, [⟨⟨"a", 0, 1, 0, 0⟩, RefEdge, ⟨"T", []⟩⟩], []⟩ =
        (emptyDFB, []) :=
  ⟨rfl,
   (C9_flush_requires_parents
      ⟨some ⟨"a", 0, 1, 0, 0⟩, [⟨⟨"a", 0, 1, 0, 0⟩, RefEdge, ⟨"T", []⟩⟩], []⟩).2.1 rfl⟩

/-- Witness for C10 on the `foo\nbar\nbaz` fixture. -/
theorem C10_cross_reference_witness :
    ExpandAnchor barDecoration.anchor barFile barNorm (MirrorEdge barDecoration.kind) =
      .ok barExpanded
    ∧ CrossReference (some barFile) (some barNorm) barDecoration =
        .ok ⟨⟨"T", [⟨CompleteFact, "definition"⟩]⟩, barExpanded⟩
    ∧ barExpanded.kind = MirrorEdge barDecoration.kind := by
  have h : ExpandAnchor barDecoration.anchor barFile barNorm (MirrorEdge barDecoration.kind) =
      .ok barExpanded := by decide
  have hc := C10_cross_reference barFile barNorm barDecoration barExpanded h
  exact ⟨h, hc.1.trans (by decide), hc.2⟩

/-! ### Claim C1: the edge-set builder invariants -/

theorem evict_edge_spec (N : Int) :
    ∀ (fuel : Nat) (s : PagedEdgeSet) (g : EdgeGroup) (acc : List EdgePage),
      ∃ newPages : List EdgePage,
        (evictPages (edgeSetPager N) fuel s g acc).2.2 = acc ++ newPages
        ∧ (evictPages (edgeSetPager N) fuel s g acc).1.source = s.source
        ∧ (evictPages (edgeSetPager N) fuel s g acc).1.group = s.group
        ∧ (evictPages (edgeSetPager N) fuel s g acc).1.totalEdges = s.totalEdges
        ∧ (evictPages (edgeSetPager N) fuel s g acc).1.pageIndex =
            s.pageIndex ++ newPages.map pidxOf
        ∧ (∀ i : Fin newPages.length,
            (newPages.get i).pageKey = newPageKey s.source.ticket (s.pageIndex.length + i.1)
            ∧ (newPages.get i).sourceTicket = s.source.ticket)
        ∧ (∀ pg ∈ newPages, pg.edgesGroup.kind = g.kind)
        ∧ sumPages newPages + (evictPages (edgeSetPager N) fuel s g acc).2.1.edge.length
            = g.edge.length
        ∧ (evictPages (edgeSetPager N) fuel s g acc).2.1.kind = g.kind := by
  intro fuel
  induction fuel with
  | zero =>
    intro s g acc
    rw [show evictPages (edgeSetPager N) 0 s g acc = (s, g, acc) from rfl]
    exact ⟨[], by rw [List.append_nil], rfl, rfl, rfl,
      by rw [List.map_nil, List.append_nil], fun i => i.elim0, by simp,
      by rw [show sumPages [] = 0 from rfl, Nat.zero_add], rfl⟩
  | succ n ih =>
    intro s g acc
    rw [evictPages]
    split
    · obtain ⟨np, h1, h2, h3, h4, h5, h6, h7, h8, h9⟩ :=
        ih ((edgeSetPager N).outputPage s
              ((edgeSetPager N).split (edgeSetPager N).maxPageSize.toNat g).1).1
          ((edgeSetPager N).split (edgeSetPager N).maxPageSize.toNat g).2
          (acc ++ [((edgeSetPager N).outputPage s
              ((edgeSetPager N).split (edgeSetPager N).maxPageSize.toNat g).1).2])
      refine ⟨((edgeSetPager N).outputPage s
          ((edgeSetPager N).split (edgeSetPager N).maxPageSize.toNat g).1).2 :: np,
        ?_, ?_, ?_, ?_, ?_, ?_, ?_, ?_, ?_⟩
      · rw [h1, List.append_assoc]
        rfl
      · exact h2
      · exact h3
      · exact h4
      · rw [h5]
        rw [show ((edgeSetPager N).outputPage s
            ((edgeSetPager N).split (edgeSetPager N).maxPageSize.toNat g).1).1.pageIndex =
          s.pageIndex ++ [pidxOf (((edgeSetPager N).outputPage s
            ((edgeSetPager N).split (edgeSetPager N).maxPageSize.toNat g).1).2)] from rfl]
        rw [List.append_assoc]
        rfl
      · rintro ⟨i, hi⟩
        match i, hi with
        | 0, _ =>
          refine ⟨?_, rfl⟩
          show newPageKey s.source.ticket s.pageIndex.length = _
          rw [Nat.add_zero]
        | j + 1, hj =>
          have hjj : j < np.length := by
            simpa using Nat.lt_of_succ_lt_succ hj
          have hk := h6 ⟨j, hjj⟩
          have hlen : ((edgeSetPager N).outputPage s
              ((edgeSetPager N).split (edgeSetPager N).maxPageSize.toNat g).1).1.pageIndex.length =
              s.pageIndex.length + 1 := by
            rw [show ((edgeSetPager N).outputPage s
                ((edgeSetPager N).split (edgeSetPager N).maxPageSize.toNat g).1).1.pageIndex =
              s.pageIndex ++ [pidxOf (((edgeSetPager N).outputPage s
                ((edgeSetPager N).split (edgeSetPager N).maxPageSize.toNat g).1).2)] from rfl]
            simp
          refine ⟨?_, ?_⟩
          · show (np.get ⟨j, hjj⟩).pageKey = _
            rw [hk.1, hlen]
            rw [show ((edgeSetPager N).outputPage s
                ((edgeSetPager N).split (edgeSetPager N).maxPageSize.toNat g).1).1.source =
              s.source from rfl]
            congr 1
            simp only [Fin.val_mk]
            omega
          · exact hk.2
      · intro pg hpg
        rcases List.mem_cons.mp hpg with hpg | hpg
        · rw [hpg]
          rfl
        · exact (h7 pg hpg).trans rfl
      · have hsum : sumPages (((edgeSetPager N).outputPage s
            ((edgeSetPager N).split (edgeSetPager N).maxPageSize.toNat g).1).2 :: np) =
            (g.edge.take (edgeSetPager N).maxPageSize.toNat).length + sumPages np := by
          simp [sumPages, edgeSetPager]
        rw [hsum, Nat.add_assoc, h8]
        simp [edgeSetPager]
        omega
      · exact h9.trans rfl
    · exact ⟨[], by rw [List.append_nil], rfl, rfl, rfl,
        by rw [List.map_nil, List.append_nil], fun i => i.elim0, by simp,
        by rw [show sumPages [] = 0 from rfl, Nat.zero_add], rfl⟩

theorem merge_edge_spec (N : Int) (groups : List EdgeGroup) (g : EdgeGroup) :
    pagerMergeGroups (edgeSetPager N) groups g ≠ []
    ∧ sumGroups (pagerMergeGroups (edgeSetPager N) groups g) =
        sumGroups groups + g.edge.length
    ∧ ∀ x ∈ pagerMergeGroups (edgeSetPager N) groups g,
        x.kind = g.kind ∨ ∃ y ∈ groups, x.kind = y.kind := by
  rcases hl : groups.getLast? with _ | last
  · rw [List.getLast?_eq_none_iff] at hl
    subst hl
    refine ⟨by simp [pagerMergeGroups], by simp [pagerMergeGroups, sumGroups], ?_⟩
    intro x hx
    simp only [pagerMergeGroups] at hx
    rcases List.mem_singleton.mp hx with rfl
    exact Or.inl rfl
  · obtain ⟨init, rfl⟩ := List.getLast?_eq_some_iff.1 hl
    by_cases hk : last.kind = g.kind
    · have hc : (edgeSetPager N).combine last g =
          some ⟨last.kind, last.edge ++ g.edge⟩ := by simp [edgeSetPager, hk]
      have hm : pagerMergeGroups (edgeSetPager N) (init ++ [last]) g =
          init ++ [(⟨last.kind, last.edge ++ g.edge⟩ : EdgeGroup)] := by
        simp only [pagerMergeGroups, hl, hc]
        rw [List.dropLast_concat]
      rw [hm]
      refine ⟨by simp, ?_, ?_⟩
      · simp [sumGroups]
        omega
      · intro x hx
        rcases List.mem_append.mp hx with hx | hx
        · exact Or.inr ⟨x, List.mem_append_left _ hx, rfl⟩
        · rcases List.mem_singleton.mp hx with rfl
          exact Or.inr ⟨last, List.mem_append_right _ (List.mem_singleton.mpr rfl), rfl⟩
    · have hc : (edgeSetPager N).combine last g = none := by simp [edgeSetPager, hk]
      have hm : pagerMergeGroups (edgeSetPager N) (init ++ [last]) g =
          (init ++ [last]) ++ [g] := by
        simp only [pagerMergeGroups, hl, hc]
      rw [hm]
      refine ⟨by simp, by simp [sumGroups]; omega, ?_⟩
      intro x hx
      rcases List.mem_append.mp hx with hx | hx
      · exact Or.inr ⟨x, hx, rfl⟩
      · rcases List.mem_singleton.mp hx with rfl
        exact Or.inl rfl

theorem addGroup_edge_inv (N : Int) (K : String → Prop) (head : Node)
    (st : PagerState PagedEdgeSet EdgeGroup) (pages : List EdgePage) (g : EdgeGroup)
    (hInv : EsInv head K st pages) (hK : K g.kind) :
    EsInv head K (pagerAddGroup (edgeSetPager N) st g).1
      (pages ++ (pagerAddGroup (edgeSetPager N) st g).2) := by
  obtain ⟨hsrc, hgrp, htot0, hpidx, hspec, htotal, hKg, hKp⟩ := hInv
  obtain ⟨hne, hsum, hkinds⟩ := merge_edge_spec N st.groups g
  obtain ⟨tail, htl⟩ := Option.isSome_iff_exists.1
    (by rwa [List.getLast?_isSome] : ((pagerMergeGroups (edgeSetPager N) st.groups g).getLast?).isSome = true)
  obtain ⟨minit, hmerged⟩ := List.getLast?_eq_some_iff.1 htl
  obtain ⟨np, e1, e2, e3, e4, e5, e6, e7, e8, e9⟩ :=
    evict_edge_spec N ((edgeSetPager N).size tail + 1) st.set tail []
  simp only [pagerAddGroup, htl]
  rw [List.nil_append] at e1
  refine ⟨?_, ?_, ?_, ?_, ?_, ?_, ?_, ?_⟩
  · exact e2.trans hsrc
  · exact e3.trans hgrp
  · exact e4.trans htot0
  · rw [e1, e5, hpidx, List.map_append]
  · rw [e1]
    rintro ⟨i, hi⟩
    have hi' : i < pages.length + np.length := by
      rw [List.length_append] at hi
      exact hi
    by_cases hlt : i < pages.length
    · have hget : (pages ++ np).get ⟨i, hi⟩ = pages.get ⟨i, hlt⟩ := by
        simp only [List.get_eq_getElem]
        exact List.getElem_append_left hlt
      rw [hget]
      exact hspec ⟨i, hlt⟩
    · have hj : i - pages.length < np.length := by omega
      have hget : (pages ++ np).get ⟨i, hi⟩ = np.get ⟨i - pages.length, hj⟩ := by
        simp only [List.get_eq_getElem]
        exact List.getElem_append_right (by omega)
      rw [hget]
      have he := e6 ⟨i - pages.length, hj⟩
      have hticket : st.set.source.ticket = head.ticket := by rw [hsrc]
      have hplen : st.set.pageIndex.length = pages.length := by
        rw [hpidx, List.length_map]
      constructor
      · rw [he.1, hticket, hplen]
        congr 1
        simp only [Fin.val_mk]
        omega
      · rw [he.2, hticket]
  · show st.total + (edgeSetPager N).size g = _
    rw [htotal]
    have hmlen : sumGroups (pagerMergeGroups (edgeSetPager N) st.groups g) =
        sumGroups minit + tail.edge.length := by
      rw [hmerged]
      simp [sumGroups]
    have hsg : sumGroups ((pagerMergeGroups (edgeSetPager N) st.groups g).dropLast ++
        [(evictPages (edgeSetPager N) ((edgeSetPager N).size tail + 1) st.set tail []).2.1]) =
        sumGroups minit + (evictPages (edgeSetPager N)
          ((edgeSetPager N).size tail + 1) st.set tail []).2.1.edge.length := by
      rw [hmerged, List.dropLast_concat]
      simp [sumGroups]
    rw [hsg, e1]
    have hsp : sumPages (pages ++ np) = sumPages pages + sumPages np := by
      simp [sumPages]
    rw [hsp]
    have : sumGroups st.groups + g.edge.length = sumGroups minit + tail.edge.length := by
      rw [← hsum, hmlen]
    show sumPages pages + sumGroups st.groups + (edgeSetPager N).size g = _
    rw [show (edgeSetPager N).size g = g.edge.length from rfl]
    omega
  · intro x hx
    rcases List.mem_append.mp hx with hx | hx
    · have hxm : x ∈ pagerMergeGroups (edgeSetPager N) st.groups g := by
        have hdl : (pagerMergeGroups (edgeSetPager N) st.groups g).dropLast = minit := by
          rw [hmerged, List.dropLast_concat]
        rw [hdl] at hx
        rw [hmerged]
        exact List.mem_append_left _ hx
      rcases hkinds x hxm with h | ⟨y, hy, hxy⟩
      · rw [h]; exact hK
      · rw [hxy]; exact hKg y hy
    · rcases List.mem_singleton.mp hx with rfl
      have htk : tail ∈ pagerMergeGroups (edgeSetPager N) st.groups g := by
        rw [hmerged]
        exact List.mem_append_right _ (List.mem_singleton.mpr rfl)
      rw [e9]
      rcases hkinds tail htk with h | ⟨y, hy, hxy⟩
      · rw [h]; exact hK
      · rw [hxy]; exact hKg y hy
  · intro pg hpg
    rcases List.mem_append.mp hpg with hpg | hpg
    · exact hKp pg hpg
    · rw [e1] at hpg
      have htk : tail ∈ pagerMergeGroups (edgeSetPager N) st.groups g := by
        rw [hmerged]
        exact List.mem_append_right _ (List.mem_singleton.mpr rfl)
      rw [e7 pg hpg]
      rcases hkinds tail htk with h | ⟨y, hy, hxy⟩
      · rw [h]; exact hK
      · rw [hxy]; exact hKg y hy

theorem init_edge_inv (N : Int) (K : String → Prop) (head : Node) :
    EsInv head K ⟨(edgeSetPager N).newSet head, [], 0⟩ [] := by
  refine ⟨rfl, rfl, rfl, rfl, fun i => i.elim0, rfl, ?_, ?_⟩
  · intro g hg
    exact absurd hg (List.not_mem_nil g)
  · intro pg hpg
    exact absurd hpg (List.not_mem_nil pg)

theorem foldl_edge_inv (N : Int) (K : String → Prop) (head : Node) :
    ∀ (gs : List EdgeGroup) (acc : PagerState PagedEdgeSet EdgeGroup × List EdgePage),
      EsInv head K acc.1 acc.2 → (∀ g ∈ gs, K g.kind) →
      EsInv head K
        ((gs.foldl (fun acc g =>
            let r := pagerAddGroup (edgeSetPager N) acc.1 g
            (r.1, acc.2 ++ r.2)) acc).1)
        ((gs.foldl (fun acc g =>
            let r := pagerAddGroup (edgeSetPager N) acc.1 g
            (r.1, acc.2 ++ r.2)) acc).2) := by
  intro gs
  induction gs with
  | nil =>
    intro acc h _
    exact h
  | cons g rest ih =>
    intro acc h hK
    rw [List.foldl_cons]
    exact ih _ (addGroup_edge_inv N K head acc.1 acc.2 g h (hK g (by simp)))
      fun g' hg' => hK g' (by simp [hg'])

theorem sumGroups_mergeSort (l : List EdgeGroup) (le : EdgeGroup → EdgeGroup → Bool) :
    sumGroups (l.mergeSort le) = sumGroups l :=
  (List.Perm.map _ (List.mergeSort_perm l le)).sum_eq

theorem sumIdx_mergeSort (l : List PageIndex) (le : PageIndex → PageIndex → Bool) :
    sumIdx (l.mergeSort le) = sumIdx l :=
  (List.Perm.map _ (List.mergeSort_perm l le)).sum_eq

theorem sumIdx_map_pidxOf (pages : List EdgePage) :
    sumIdx (pages.map pidxOf) = sumPages pages := by
  simp [sumIdx, sumPages, pidxOf, List.map_map]
  rfl

/-- C1: a completed `EdgeSetBuilder` run (`StartEdgeSet`, `AddGroup`s in the
assumed order, `Flush`) emits a `PagedEdgeSet` whose total equals the edges
in its groups plus the counts in its page index, whose group list and page
index are sorted by the edge-kind comparator, whose page index corresponds
one-to-one (kind, count, key) with the emitted pages, and whose pages carry
the source ticket with dense zero-based zero-padded ordinals in emission
order. -/
theorem C1_paged_edge_set_run (N : Int) (head : Node) (gs : List EdgeGroup)
    (hEm : ∀ g ∈ gs, EmittedKind g.kind) :
    ((runEdgeSetBuilder N head gs).1.totalEdges =
        sumGroups (runEdgeSetBuilder N head gs).1.group +
          sumIdx (runEdgeSetBuilder N head gs).1.pageIndex)
    ∧ ((runEdgeSetBuilder N head gs).1.group.Pairwise fun a b =>
        edgeKindLess b.kind a.kind = false)
    ∧ ((runEdgeSetBuilder N head gs).1.pageIndex.Pairwise fun a b =>
        edgeKindLess b.edgeKind a.edgeKind = false)
    ∧ ((runEdgeSetBuilder N head gs).1.pageIndex.Perm
        ((runEdgeSetBuilder N head gs).2.map pidxOf))
    ∧ pagesSpec head.ticket (runEdgeSetBuilder N head gs).2
    ∧ (runEdgeSetBuilder N head gs).1.source = head := by
  obtain ⟨hsrc, hgrp, htot0, hpidx, hspec, htotal, hKg, hKp⟩ :=
    foldl_edge_inv N EmittedKind head gs
      (⟨(edgeSetPager N).newSet head, [], 0⟩, ([] : List EdgePage))
      (init_edge_inv N EmittedKind head) hEm
  refine ⟨?_, ?_, ?_, ?_, hspec, hsrc⟩
  · show (gs.foldl (fun acc g =>
        let r := pagerAddGroup (edgeSetPager N) acc.1 g
        (r.1, acc.2 ++ r.2)) (⟨(edgeSetPager N).newSet head, [], 0⟩, [])).1.total = _
    rw [htotal]
    rw [show (runEdgeSetBuilder N head gs).1.group =
      ((gs.foldl (fun acc g =>
          let r := pagerAddGroup (edgeSetPager N) acc.1 g
          (r.1, acc.2 ++ r.2)) (⟨(edgeSetPager N).newSet head, [], 0⟩, [])).1.groups).mergeSort
        (fun a b => !edgeKindLess b.kind a.kind) from rfl]
    rw [show (runEdgeSetBuilder N head gs).1.pageIndex =
      ((gs.foldl (fun acc g =>
          let r := pagerAddGroup (edgeSetPager N) acc.1 g
          (r.1, acc.2 ++ r.2)) (⟨(edgeSetPager N).newSet head, [], 0⟩, [])).1.set.pageIndex).mergeSort
        (fun a b => !edgeKindLess b.edgeKind a.edgeKind) from rfl]
    rw [sumGroups_mergeSort, sumIdx_mergeSort, hpidx, sumIdx_map_pidxOf]
    omega
  · show (((gs.foldl (fun acc g =>
        let r := pagerAddGroup (edgeSetPager N) acc.1 g
        (r.1, acc.2 ++ r.2)) (⟨(edgeSetPager N).newSet head, [], 0⟩, [])).1.groups).mergeSort
          (fun a b => !edgeKindLess b.kind a.kind)).Pairwise _
    have hs := sorted_mergeSort_of_mem (fun a b : EdgeGroup => !edgeKindLess b.kind a.kind)
      (fun g => EmittedKind g.kind)
      (fun a b c pa pb pc h1 h2 => edgeLe_trans_em pa pb pc h1 h2)
      (fun a b pa pb => edgeLe_total_em pa pb)
      _ hKg
    exact hs.imp fun h => by rwa [Bool.not_eq_true'] at h
  · show (((gs.foldl (fun acc g =>
        let r := pagerAddGroup (edgeSetPager N) acc.1 g
        (r.1, acc.2 ++ r.2)) (⟨(edgeSetPager N).newSet head, [], 0⟩, [])).1.set.pageIndex).mergeSort
          (fun a b => !edgeKindLess b.edgeKind a.edgeKind)).Pairwise _
    have hK' : ∀ i ∈ (gs.foldl (fun acc g =>
        let r := pagerAddGroup (edgeSetPager N) acc.1 g
        (r.1, acc.2 ++ r.2)) (⟨(edgeSetPager N).newSet head, [], 0⟩, [])).1.set.pageIndex,
        EmittedKind i.edgeKind := by
      rw [hpidx]
      intro i hi
      obtain ⟨pg, hpg, rfl⟩ := List.mem_map.1 hi
      exact hKp pg hpg
    have hs := sorted_mergeSort_of_mem (fun a b : PageIndex => !edgeKindLess b.edgeKind a.edgeKind)
      (fun i => EmittedKind i.edgeKind)
      (fun a b c pa pb pc h1 h2 => edgeLe_trans_em pa pb pc h1 h2)
      (fun a b pa pb => edgeLe_total_em pa pb)
      _ hK'
    exact hs.imp fun h => by rwa [Bool.not_eq_true'] at h
  · show (((gs.foldl (fun acc g =>
        let r := pagerAddGroup (edgeSetPager N) acc.1 g
        (r.1, acc.2 ++ r.2)) (⟨(edgeSetPager N).newSet head, [], 0⟩, [])).1.set.pageIndex).mergeSort
          (fun a b => !edgeKindLess b.edgeKind a.edgeKind)).Perm _
    refine (List.mergeSort_perm _ _).trans ?_
    rw [hpidx]
    exact List.Perm.refl _

/-- Witness for C1: the paging scenario with `MaxEdgePageSize = 2` and five
edges of one kind (two full pages plus a remainder group). -/
theorem C1_paged_edge_set_run_witness :
    (∀ g ∈ [(⟨RefEdge, [⟨"a", 0⟩, ⟨"b", 0⟩, ⟨"c", 0⟩, ⟨"d", 0⟩, ⟨"e", 0⟩]⟩ : EdgeGroup)],
        EmittedKind g.kind)
    ∧ (runEdgeSetBuilder 2 ⟨"S", []⟩
        [⟨RefEdge, [⟨"a", 0⟩, ⟨"b", 0⟩, ⟨"c", 0⟩, ⟨"d", 0⟩, ⟨"e", 0⟩]⟩]).1.totalEdges =
      sumGroups (runEdgeSetBuilder 2 ⟨"S", []⟩
        [⟨RefEdge, [⟨"a", 0⟩, ⟨"b", 0⟩, ⟨"c", 0⟩, ⟨"d", 0⟩, ⟨"e", 0⟩]⟩]).1.group +
      sumIdx (runEdgeSetBuilder 2 ⟨"S", []⟩
        [⟨RefEdge, [⟨"a", 0⟩, ⟨"b", 0⟩, ⟨"c", 0⟩, ⟨"d", 0⟩, ⟨"e", 0⟩]⟩]).1.pageIndex
    ∧ pagesSpec "S" (runEdgeSetBuilder 2 ⟨"S", []⟩
        [⟨RefEdge, [⟨"a", 0⟩, ⟨"b", 0⟩, ⟨"c", 0⟩, ⟨"d", 0⟩, ⟨"e", 0⟩]⟩]).2 := by
  have h := C1_paged_edge_set_run 2 ⟨"S", []⟩
    [⟨RefEdge, [⟨"a", 0⟩, ⟨"b", 0⟩, ⟨"c", 0⟩, ⟨"d", 0⟩, ⟨"e", 0⟩]⟩]
    (by intro g hg; rcases List.mem_singleton.mp hg with rfl; decide)
  exact ⟨by intro g hg; rcases List.mem_singleton.mp hg with rfl; decide,
    h.1, h.2.2.2.2.1⟩

end Kythe
